import Mathlib

/-!
vidcollage: tile specifications, layout and the compositing loop.

A shallow embedding of `vidcollage.cpp`.

* C strings are lists of characters (the characters before the terminating NUL).
* `int` values are integers; conversions to `int` and `int` additions are reduced to the
  32-bit two's complement range by `toInt32` (the C++ standard leaves signed overflow
  undefined; the reduction is what the usual targets do, and every theorem that depends on
  it says so through a range hypothesis).
* libc (`strtok_r`, `atoi`, `printf`) is modelled from its ISO C / POSIX contract.
* OpenCV (`VideoCapture`, `VideoWriter`, `resize`, `Mat`) is not part of the program: what
  its calls hand back is a parameter, collected in `World`.  The loop is given twice: as
  `run`, the effect of the iterations when every OpenCV call returns, and as `run_checked`,
  which stops where `comp_frame(r)` or `resize` raises an exception that `main` does not
  catch.
-/

namespace VidCollage

/-! ## C strings and libc -/

/-- A C string: the characters that precede the terminating NUL. -/
abbrev CStr := List Char

/-- Two's complement reduction of an integer to the range of `int`. -/
def toInt32 (v : Int) : Int := (v + 2147483648) % 4294967296 - 2147483648

/-- Saturation to the range of `long` (64 bits), as `strtol` does on overflow. -/
def clampLong (v : Int) : Int :=
  if v > 9223372036854775807 then 9223372036854775807
  else if v < -9223372036854775808 then -9223372036854775808
  else v

/-- The `isspace` class of the C locale: space, `\t`, `\n`, `\v`, `\f`, `\r`. -/
def isspace (c : Char) : Bool :=
  c = ' ' || (9 ≤ c.toNat && c.toNat ≤ 13)

/-- The `isdigit` class: the characters `0` to `9`. -/
def isdigit (c : Char) : Bool := 48 ≤ c.toNat && c.toNat ≤ 57

/-- Value of the longest run of decimal digits at the start of `s` (0 when there is none). -/
def digitsValue (s : CStr) : Nat :=
  (s.takeWhile isdigit).foldl (fun acc c => acc * 10 + (c.toNat - 48)) 0

/-- The function `strtol(s, NULL, 10)`: blanks, an optional sign, then decimal digits. -/
def strtol (s : CStr) : Int :=
  match s.dropWhile isspace with
  | '-' :: r => clampLong (-(digitsValue r : Int))
  | '+' :: r => clampLong (digitsValue r)
  | r => clampLong (digitsValue r)

/-- The function `atoi`, which is `(int) strtol(s, NULL, 10)`. -/
def atoi (s : CStr) : Int := toInt32 (strtol s)

/-- One call of `strtok_r` scanning `s` (the string argument on the first call, the save
pointer afterwards) with the delimiter set `delim`.  The result is the token, or `none` for
a NULL return, together with the new value of the save pointer. -/
def strtok_r (s : CStr) (delim : CStr) : Option CStr × CStr :=
  if s = [] then (none, [])
  else
    let s1 := s.dropWhile (fun c => decide (c ∈ delim))
    if s1 = [] then (none, [])
    else
      match s1.dropWhile (fun c => !decide (c ∈ delim)) with
      | [] => (some (s1.takeWhile (fun c => !decide (c ∈ delim))), [])
      | _ :: rest => (some (s1.takeWhile (fun c => !decide (c ∈ delim))), rest)

/-- What `printf` writes for `%d`. -/
def fmt_d (v : Int) : CStr :=
  match v with
  | Int.ofNat n => Nat.toDigits 10 n
  | Int.negSucc n => '-' :: Nat.toDigits 10 (n + 1)

/-! ## Data model -/

/-- The class `cv::Rect`: top-left corner and size, four `int`s. -/
structure Rect where
  x : Int
  y : Int
  width : Int
  height : Int
deriving DecidableEq

/-- The struct `tile_info_t`. -/
structure tile_info_t where
  vid_filename : CStr
  title : Option CStr
  tile_rect : Rect
  frames : Int
deriving DecidableEq

/-- The two ways in which `parse_tile` does not return. -/
inductive ParseError where
  /-- `CHECK_TILE_DESC` fired: "Malformed tile description", `usage()`, `exit(1)`. -/
  | malformed
  /-- A NULL token of `strtok_r` was handed to `strdup` or `atoi` (undefined behaviour). -/
  | nullDeref
deriving DecidableEq

deriving instance DecidableEq for Except

/-- The function `parse_tile`. -/
def parse_tile (tile_spec : CStr) : Except ParseError tile_info_t :=
  match strtok_r tile_spec ['@'] with
  | (none, _) => .error .nullDeref
  | (some vid_file, p) =>
    if p.length = 0 then .error .malformed
    else
      match strtok_r p ['x'] with
      | (none, _) => .error .nullDeref
      | (some w, p) =>
        let width := atoi w
        if p.length = 0 then .error .malformed
        else
          match strtok_r p ['+'] with
          | (none, _) => .error .nullDeref
          | (some h, p) =>
            let height := atoi h
            if p.length = 0 then .error .malformed
            else
              match strtok_r p ['+'] with
              | (none, _) => .error .nullDeref
              | (some xo, p) =>
                let x_off := atoi xo
                if p.length = 0 then .error .malformed
                else
                  let y_off := atoi p
                  .ok { vid_filename := vid_file
                        title := none
                        tile_rect := { x := x_off, y := y_off, width := width, height := height }
                        frames := 0 }

/-- The text that `print_tile` writes to standard output. -/
def print_tile (tile : tile_info_t) : CStr :=
  tile.vid_filename ++ '@' :: fmt_d tile.tile_rect.width ++ 'x' :: fmt_d tile.tile_rect.height
    ++ '+' :: fmt_d tile.tile_rect.x ++ '+' :: fmt_d tile.tile_rect.y ++ [Char.ofNat 10]

/-! ## OpenCV, as far as the program sees it -/

/-- A pixel of a `CV_8UC3` matrix: three 8-bit channels. -/
abbrev Pixel := Fin 256 × Fin 256 × Fin 256

/-- The pixels of an image, by column `x` and row `y`. -/
abbrev Image := Int → Int → Pixel

/-- The test `cv::Rect::contains`: is the point `(x, y)` inside the rectangle? -/
def Rect.contains (r : Rect) (x y : Int) : Bool :=
  decide (r.x ≤ x) && decide (x < r.x + r.width) && decide (r.y ≤ y) &&
    decide (y < r.y + r.height)

/-- Writing the image `img` into the region `r` of `canvas` (what `resize` does with the
destination `comp_frame(r)`); the pixels outside `r` are not touched. -/
def blit (canvas : Image) (r : Rect) (img : Image) : Image :=
  fun x y => if r.contains x y then img (x - r.x) (y - r.y) else canvas x y

/-- What the OpenCV calls of the program hand back.  Decoded frames are taken to be of type
`CV_8UC3`, the type of the canvas. -/
structure World where
  /-- The value of `vids[i].get(CV_CAP_PROP_FRAME_COUNT)`, converted to `int`, once `vids[i]`
  was opened on the given file. -/
  frame_count : Nat → CStr → Int
  /-- The image that call number `k` (from 0) of `vids[i].read` leaves in `frames[i]`. -/
  read : Nat → Nat → Image
  /-- Whether call number `k` of `vids[i].read` fails and leaves `frames[i]` empty. -/
  read_empty : Nat → Nat → Bool
  /-- The image that `resize(src, dst, Size(w, h), 0, 0, INTER_CUBIC)` produces, relative to
  the corner of `dst`. -/
  resize : Image → Int → Int → Image
  /-- The value of `video_writer.isOpened()` after
  `open(output_filename, fourcc, fps, Size(x_max, y_max))`. -/
  writer_opens : CStr → CStr → Int → Int → Int → Bool
  /-- The contents of the canvas right after `Mat(y_max, x_max, CV_8UC3)`. -/
  fresh : Image

/-! ## The layout pass (lines 138-159 of `main`) -/

/-- The running values `x_max`, `y_max` and `max_frames`. -/
structure Layout where
  x_max : Int
  y_max : Int
  max_frames : Int
deriving DecidableEq

/-- The loop over the tiles that opens each source, stores its frame count in the tile and
accumulates `max_frames`, `x_max` and `y_max`; `i` is the index of the first tile of the
list.  It returns the tiles with their frame counts and the final running values. -/
def probe_and_measure (w : World) : Nat → List tile_info_t → Layout → List tile_info_t × Layout
  | _, [], acc => ([], acc)
  | i, t :: ts, acc =>
    let r := t.tile_rect
    let t1 := { t with frames := w.frame_count i t.vid_filename }
    let acc1 := if t1.frames > acc.max_frames then { acc with max_frames := t1.frames } else acc
    let acc2 := if toInt32 (r.x + r.width) > acc1.x_max
      then { acc1 with x_max := toInt32 (r.x + r.width) } else acc1
    let acc3 := if toInt32 (r.y + r.height) > acc2.y_max
      then { acc2 with y_max := toInt32 (r.y + r.height) } else acc2
    let rest := probe_and_measure w (i + 1) ts acc3
    (t1 :: rest.1, rest.2)

/-- The tiles after the layout pass: frame counts filled in. -/
def probed (w : World) (tiles : List tile_info_t) : List tile_info_t :=
  (probe_and_measure w 0 tiles { x_max := 0, y_max := 0, max_frames := 0 }).1

/-- The values of `x_max`, `y_max` and `max_frames` after the layout pass. -/
def measured (w : World) (tiles : List tile_info_t) : Layout :=
  (probe_and_measure w 0 tiles { x_max := 0, y_max := 0, max_frames := 0 }).2

/-! ## The compositing loop (lines 177-197 of `main`) -/

/-- The state of the compositing loop.  The fields `reads` and `written` record what the
loop does to its collaborators. -/
structure LoopState where
  /-- The canvas `comp_frame`. -/
  comp_frame : Image
  /-- How many calls of `read` each capture `vids[i]` has served. -/
  next : Nat → Nat
  /-- The calls of `read` made so far, oldest first: frame index and tile index. -/
  reads : List (Nat × Nat)
  /-- The canvases handed to `video_writer.write` so far, oldest first. -/
  written : List Image

/-- The state before the first iteration. -/
def LoopState.initial (canvas : Image) : LoopState :=
  { comp_frame := canvas, next := fun _ => 0, reads := [], written := [] }

/-- The body of the loop over the tiles, for tile `i` at frame index `frame`, when the calls
of lines 182-184 return. -/
def paint_tile (w : World) (frame : Nat) (i : Nat) (t : tile_info_t) (st : LoopState) :
    LoopState :=
  if t.frames > (frame : Int) then
    let r := t.tile_rect
    { comp_frame := blit st.comp_frame r (w.resize (w.read i (st.next i)) r.width r.height)
      next := Function.update st.next i (st.next i + 1)
      reads := st.reads ++ [(frame, i)]
      written := st.written }
  else st

/-- The loop over the tiles `i`, `i + 1`, ... at frame index `frame`. -/
def paint_tiles (w : World) (frame : Nat) : Nat → List tile_info_t → LoopState → LoopState
  | _, [], st => st
  | i, t :: ts, st => paint_tiles w frame (i + 1) ts (paint_tile w frame i t st)

/-- One iteration of the loop over the frames: paint the tiles, then write the canvas. -/
def frame_step (w : World) (tiles : List tile_info_t) (st : LoopState) (frame : Nat) :
    LoopState :=
  let st1 := paint_tiles w frame 0 tiles st
  { st1 with written := st1.written ++ [st1.comp_frame] }

/-- The state after the iterations `0`, ..., `n - 1` of the loop over the frames. -/
def after (w : World) (tiles : List tile_info_t) (st : LoopState) (n : Nat) : LoopState :=
  (List.range n).foldl (frame_step w tiles) st

/-- The loop `for (frame = 0; frame < max_frames; frame++)`. -/
def compose (w : World) (tiles : List tile_info_t) (max_frames : Int) (st : LoopState) :
    LoopState :=
  after w tiles st max_frames.toNat

/-- The frame indices at which capture `i` was read, oldest first. -/
def reads_of (i : Nat) (st : LoopState) : List Nat :=
  (st.reads.filter (fun e => decide (e.2 = i))).map Prod.fst

/-- Lines 138-197 of `main`, the opening of the writer apart: the layout pass followed by
the compositing loop, when every OpenCV call of the loop returns. -/
def run (w : World) (tiles : List tile_info_t) : LoopState :=
  compose w (probed w tiles) (measured w tiles).max_frames (LoopState.initial w.fresh)

/-! ## The compositing loop with the exceptions of OpenCV -/

/-- The assertion of `Mat::operator()(const Rect&)` behind `comp_frame(r)`: the region lies
within the canvas, which has `y_max` rows and `x_max` columns. -/
def roi_ok (lay : Layout) (r : Rect) : Bool :=
  decide (0 ≤ r.x) && decide (0 ≤ r.width) && decide (toInt32 (r.x + r.width) ≤ lay.x_max) &&
    decide (0 ≤ r.y) && decide (0 ≤ r.height) && decide (toInt32 (r.y + r.height) ≤ lay.y_max)

/-- The body of the loop over the tiles with its exceptions: after the call of `read`,
`comp_frame(r)` throws for a region that leaves the canvas, and `resize` throws for an empty
source frame or an empty target size.  The program has no handler, so an exception ends the
run; `.error` carries the state at that point. -/
def paint_tile_checked (w : World) (lay : Layout) (frame : Nat) (i : Nat) (t : tile_info_t)
    (st : LoopState) : Except LoopState LoopState :=
  if t.frames > (frame : Int) then
    let r := t.tile_rect
    let st1 : LoopState :=
      { comp_frame := st.comp_frame
        next := Function.update st.next i (st.next i + 1)
        reads := st.reads ++ [(frame, i)]
        written := st.written }
    if roi_ok lay r = false then .error st1
    else if w.read_empty i (st.next i) = true then .error st1
    else if r.width * r.height = 0 then .error st1
    else .ok (paint_tile w frame i t st)
  else .ok st

/-- The loop over the tiles with its exceptions. -/
def paint_tiles_checked (w : World) (lay : Layout) (frame : Nat) :
    Nat → List tile_info_t → LoopState → Except LoopState LoopState
  | _, [], st => .ok st
  | i, t :: ts, st =>
    match paint_tile_checked w lay frame i t st with
    | .error e => .error e
    | .ok st1 => paint_tiles_checked w lay frame (i + 1) ts st1

/-- One iteration of the loop over the frames with its exceptions. -/
def frame_step_checked (w : World) (lay : Layout) (tiles : List tile_info_t) (st : LoopState)
    (frame : Nat) : Except LoopState LoopState :=
  match paint_tiles_checked w lay frame 0 tiles st with
  | .error e => .error e
  | .ok st1 => .ok { st1 with written := st1.written ++ [st1.comp_frame] }

/-- The iterations `0`, ..., `n - 1` of the loop over the frames with their exceptions. -/
def after_checked (w : World) (lay : Layout) (tiles : List tile_info_t) (st : LoopState) :
    Nat → Except LoopState LoopState
  | 0 => .ok st
  | n + 1 =>
    match after_checked w lay tiles st n with
    | .error e => .error e
    | .ok st1 => frame_step_checked w lay tiles st1 n

/-- Lines 138-197 of `main`, the opening of the writer apart, with the exceptions of the
loop: `.ok` is the state after the last iteration, `.error` the state when an exception
ended the run. -/
def run_checked (w : World) (tiles : List tile_info_t) : Except LoopState LoopState :=
  after_checked w (measured w tiles) (probed w tiles) (LoopState.initial w.fresh)
    (measured w tiles).max_frames.toNat

/-- The state in which the loop ended, normally or not. -/
def final_state : Except LoopState LoopState → LoopState
  | .ok st => st
  | .error st => st

/-- Whether the loop ended by an exception. -/
def threw : Except LoopState LoopState → Bool
  | .ok _ => false
  | .error _ => true

/-! ## The function `main` -/

/-- What one call of `getopt_long` hands back. -/
inductive OptEvent where
  | codec (optarg : CStr)
  | fps (optarg : CStr)
  | output (optarg : CStr)
  | verbose
  | help
  /-- The return value `?`: an option that `getopt_long` does not accept. -/
  | unknown

/-- The command line as `getopt_long` presents it: the options in order, then the
arguments from `optind` on. -/
structure CommandLine where
  options : List OptEvent
  operands : List CStr

/-- The variables that the option loop sets. -/
structure Options where
  fps : Int
  output_filename : Option CStr
  codec : Option CStr
  verbose : Bool

/-- The values of the option variables before the option loop (lines 58-64). -/
def default_options : Options :=
  { fps := 30, output_filename := none, codec := none, verbose := false }

/-- The option loop (lines 77-99); `none` stands for `usage(); exit(1)`. -/
def scan_options : List OptEvent → Options → Option Options
  | [], o => some o
  | OptEvent.codec a :: r, o => scan_options r { o with codec := some a }
  | OptEvent.fps a :: r, o => scan_options r { o with fps := atoi a }
  | OptEvent.output a :: r, o => scan_options r { o with output_filename := some a }
  | OptEvent.verbose :: r, o => scan_options r { o with verbose := true }
  | OptEvent.help :: _, _ => none
  | OptEvent.unknown :: _, _ => none

/-- The loop that parses the tile specifications (lines 102-114). -/
def parse_tiles : List CStr → Except ParseError (List tile_info_t)
  | [] => .ok []
  | s :: r =>
    match parse_tile s with
    | .error e => .error e
    | .ok t =>
      match parse_tiles r with
      | .error e => .error e
      | .ok ts => .ok (t :: ts)

/-- How a run of the program ends. -/
inductive Outcome where
  /-- The process ended with this exit status, having written these frames. -/
  | exited (status : Int) (written : List Image)
  /-- A NULL pointer reached `strdup` or `atoi`: undefined behaviour, no exit status. -/
  | crashed
  /-- An exception of OpenCV left `main`: the process is aborted, no exit status. -/
  | aborted

/-- The exit status of a run, when it has one. -/
def Outcome.status : Outcome → Option Int
  | .exited s _ => some s
  | .crashed => none
  | .aborted => none

/-- The function `main` (what it prints is left out). -/
def main (w : World) (cl : CommandLine) : Outcome :=
  match scan_options cl.options default_options with
  | none => .exited 1 []
  | some o =>
    match parse_tiles cl.operands with
    | .error .malformed => .exited 1 []
    | .error .nullDeref => .crashed
    | .ok tiles =>
      if tiles.length ≤ 0 then .exited 1 []
      else
        let codec := o.codec.getD "xvid".toList
        if codec.length ≠ 4 then .exited 1 []
        else if o.fps < 1 then .exited 1 []
        else
          let output_filename := o.output_filename.getD "composite.avi".toList
          if w.writer_opens output_filename codec o.fps (measured w tiles).x_max
              (measured w tiles).y_max = false then .exited 1 []
          else
            match run_checked w tiles with
            | .error _ => .aborted
            | .ok st => .exited 0 st.written

/-! ## Specification side -/

/-- Help was requested or an option was not accepted. -/
def usage_requested (opts : List OptEvent) : Bool :=
  opts.any (fun e => match e with
    | OptEvent.help => true
    | OptEvent.unknown => true
    | _ => false)

/-- Whether an integer is a value of `int`. -/
def fitsInt (v : Int) : Bool := decide (-2147483648 ≤ v) && decide (v ≤ 2147483647)

/-- The right edge `x_offset + width` of a tile. -/
def right_edge (t : tile_info_t) : Int := t.tile_rect.x + t.tile_rect.width

/-- The bottom edge `y_offset + height` of a tile. -/
def bottom_edge (t : tile_info_t) : Int := t.tile_rect.y + t.tile_rect.height

/-- A tile that the loop can paint: offsets not negative, a size that is not empty, and a
right and a bottom edge that are values of `int`. -/
def paintable (t : tile_info_t) : Bool :=
  decide (0 ≤ t.tile_rect.x) && decide (0 ≤ t.tile_rect.y) && decide (0 < t.tile_rect.width) &&
    decide (0 < t.tile_rect.height) && fitsInt (right_edge t) && fitsInt (bottom_edge t)

/-- The largest value of `f` over a list, 0 for the empty list ("max over tiles"). -/
def maxOver {α : Type} (f : α → Int) : List α → Int
  | [] => 0
  | [a] => f a
  | a :: b :: r => max (f a) (maxOver f (b :: r))

/-- A world for the examples: source `i` has `3 - i` frames, frame `k` of source `i` is
uniformly of colour `(i, k, 0)`, every read delivers a frame, `resize` keeps the pixels, the
writer opens. -/
def exampleWorld : World :=
  { frame_count := fun i _ => 3 - (i : Int)
    read := fun i k _ _ => (Fin.ofNat i, Fin.ofNat k, 0)
    read_empty := fun _ _ => false
    resize := fun img _ _ => img
    writer_opens := fun _ _ _ _ _ => true
    fresh := fun _ _ => (255, 255, 255) }

/-- The example world with sources of unknown length: every frame count is -1. -/
def deviceWorld : World :=
  { exampleWorld with frame_count := fun _ _ => -1 }

/-- The example world with sources of 10, 25 and 5 frames. -/
def raggedWorld : World :=
  { exampleWorld with frame_count := fun i _ => ([10, 25, 5] : List Int).getD i 0 }

/-- The example world with a first source of 2 frames and a second one of none. -/
def idleWorld : World :=
  { exampleWorld with frame_count := fun i _ => 2 - 2 * (i : Int) }

/-- The example world with sources that deliver their first frame only. -/
def shortWorld : World :=
  { exampleWorld with read_empty := fun _ k => decide (1 ≤ k) }

/-- A tile on the file `f` with the rectangle `(x, y, w, h)`, as `parse_tile` leaves it. -/
def mkTile (f : CStr) (x y w h : Int) : tile_info_t :=
  { vid_filename := f, title := none,
    tile_rect := { x := x, y := y, width := w, height := h }, frames := 0 }

/-- The text `path@WxH+X+Y` with the four numbers written in decimal (what the command
line documents as a tile specification). -/
def spec_text (path : CStr) (w h x y : Nat) : CStr :=
  path ++ ['@'] ++ Nat.toDigits 10 w ++ ['x'] ++ Nat.toDigits 10 h ++ ['+']
    ++ Nat.toDigits 10 x ++ ['+'] ++ Nat.toDigits 10 y

/-- Cut `s` at the first occurrence of `d`: the text before it and the text after it, or
`none` when `d` does not occur (specification side: one split point of the grammar). -/
def cutAt (d : Char) : CStr → Option (CStr × CStr)
  | [] => none
  | c :: t => if c = d then some ([], t) else (cutAt d t).map (fun r => (c :: r.1, r.2))

/-- The five fields of `path@WIDTHxHEIGHT+XOFFSET+YOFFSET`, split at `@`, then `x`, then
`+` twice; `none` when a delimiter is absent (specification side). -/
def fields (s : CStr) : Option (CStr × CStr × CStr × CStr × CStr) :=
  match cutAt '@' s with
  | none => none
  | some (path, r1) =>
    match cutAt 'x' r1 with
    | none => none
    | some (w, r2) =>
      match cutAt '+' r2 with
      | none => none
      | some (h, r3) =>
        match cutAt '+' r3 with
        | none => none
        | some (x, y) => some (path, w, h, x, y)

/-- A field is missing: a delimiter is absent, or the text between two delimiters or after
the last one is empty (specification side, the wording of the claim). -/
def field_missing (s : CStr) : Bool :=
  match fields s with
  | none => true
  | some (path, w, h, x, y) => path = [] || w = [] || h = [] || x = [] || y = []

/-- A field that ends at its delimiter is empty: the string starts with `@`, or the text
after the `@` starts with `x`, or the text after that `x` starts with `+`, or the text after
that `+` starts with `+` (specification side). -/
def empty_inner_field (s : CStr) : Bool :=
  match cutAt '@' s with
  | none => false
  | some (path, r1) =>
    path = [] ||
      match cutAt 'x' r1 with
      | none => false
      | some (w, r2) =>
        w = [] ||
          match cutAt '+' r2 with
          | none => false
          | some (h, r3) =>
            h = [] ||
              match cutAt '+' r3 with
              | none => false
              | some (x, _) => x = []

/-- A delimiter is absent, or the text after the last delimiter is empty. -/
def tail_missing (s : CStr) : Bool :=
  match fields s with
  | none => true
  | some (_, _, _, _, y) => y = []

/-! ## Facts about the libc model -/

theorem toInt32_of_inRange (v : Int) (h1 : -2147483648 ≤ v) (h2 : v ≤ 2147483647) :
    toInt32 v = v := by
  unfold toInt32
  omega

theorem toInt32_range (v : Int) : -2147483648 ≤ toInt32 v ∧ toInt32 v ≤ 2147483647 := by
  unfold toInt32
  omega

theorem atoi_range (s : CStr) : -2147483648 ≤ atoi s ∧ atoi s ≤ 2147483647 :=
  toInt32_range _

theorem clampLong_of_inRange (v : Int) (h1 : -9223372036854775808 ≤ v)
    (h2 : v ≤ 9223372036854775807) : clampLong v = v := by
  unfold clampLong
  split_ifs <;> omega

theorem digitChar_isdigit (k : Nat) (h : k < 10) :
    isdigit (Nat.digitChar k) = true ∧ (Nat.digitChar k).toNat - 48 = k := by
  interval_cases k <;> decide

/-- The digits written by `Nat.toDigitsCore` are decimal digits and read back as the number. -/
theorem toDigitsCore_spec (fuel : Nat) : ∀ (n : Nat) (ds : List Char), n < fuel →
    ∃ l : List Char, Nat.toDigitsCore 10 fuel n ds = l ++ ds ∧ l ≠ [] ∧
      (∀ c ∈ l, isdigit c = true) ∧
      l.foldl (fun acc c => acc * 10 + (c.toNat - 48)) 0 = n := by
  induction fuel with
  | zero => intro n ds h; omega
  | succ fuel ih =>
    intro n ds h
    unfold Nat.toDigitsCore
    by_cases h0 : n / 10 = 0
    · refine ⟨[Nat.digitChar (n % 10)], by simp [h0], by simp, ?_, ?_⟩
      · intro c hc
        simp only [List.mem_singleton] at hc
        subst hc
        exact (digitChar_isdigit _ (Nat.mod_lt _ (by decide))).1
      · simp only [List.foldl_cons, List.foldl_nil, Nat.zero_mul, Nat.zero_add]
        rw [(digitChar_isdigit _ (Nat.mod_lt _ (by decide))).2]
        omega
    · have hlt : n / 10 < fuel := by omega
      obtain ⟨l, hl, _, hdig, hval⟩ := ih (n / 10) (Nat.digitChar (n % 10) :: ds) hlt
      refine ⟨l ++ [Nat.digitChar (n % 10)], by simp [h0, hl], by simp, ?_, ?_⟩
      · intro c hc
        rcases List.mem_append.1 hc with hc | hc
        · exact hdig c hc
        · simp only [List.mem_singleton] at hc
          subst hc
          exact (digitChar_isdigit _ (Nat.mod_lt _ (by decide))).1
      · rw [List.foldl_append, hval]
        simp only [List.foldl_cons, List.foldl_nil]
        rw [(digitChar_isdigit _ (Nat.mod_lt _ (by decide))).2]
        omega

/-- The decimal text of a natural number: non-empty, digits only, and it reads back. -/
theorem toDigits_spec (n : Nat) :
    Nat.toDigits 10 n ≠ [] ∧ (∀ c ∈ Nat.toDigits 10 n, isdigit c = true) ∧
      (Nat.toDigits 10 n).foldl (fun acc c => acc * 10 + (c.toNat - 48)) 0 = n := by
  obtain ⟨l, hl, hne, hdig, hval⟩ := toDigitsCore_spec (n + 1) n [] (Nat.lt_succ_self n)
  have : Nat.toDigits 10 n = l := by simp [Nat.toDigits, hl]
  rw [this]
  exact ⟨hne, hdig, hval⟩

theorem takeWhile_eq_self_of_all {α : Type} (p : α → Bool) (l : List α)
    (h : ∀ a ∈ l, p a = true) : l.takeWhile p = l := by
  induction l with
  | nil => rfl
  | cons a t ih =>
    rw [List.takeWhile_cons_of_pos (h a (List.mem_cons_self a t)),
      ih (fun b hb => h b (List.mem_cons_of_mem a hb))]

theorem strtol_of_digit_head (c : Char) (t : CStr) (h : isdigit c = true) :
    strtol (c :: t) = clampLong (digitsValue (c :: t)) := by
  have hsp : isspace c = false := by
    simp only [isdigit, Bool.and_eq_true, decide_eq_true_eq] at h
    have hne : c ≠ ' ' := by
      rintro rfl
      revert h
      decide
    simp only [isspace, Bool.or_eq_false_iff, decide_eq_false_iff_not, Bool.and_eq_false_iff]
    exact ⟨hne, by omega⟩
  have hd : (c :: t).dropWhile isspace = c :: t := by
    rw [List.dropWhile_cons_of_neg (by simp [hsp])]
  unfold strtol
  rw [hd]
  split
  · next r heq =>
    injection heq with h1 _
    subst h1
    exact absurd h (by decide)
  · next r heq =>
    injection heq with h1 _
    subst h1
    exact absurd h (by decide)
  · rfl

/-- The function `atoi` reads the decimal text of an `int`-sized natural number back. -/
theorem atoi_toDigits (n : Nat) (h : n ≤ 2147483647) : atoi (Nat.toDigits 10 n) = n := by
  obtain ⟨hne, hdig, hval⟩ := toDigits_spec n
  obtain ⟨c, t, hct⟩ := List.exists_cons_of_ne_nil hne
  have hc : isdigit c = true := hdig c (by rw [hct]; exact List.mem_cons_self c t)
  unfold atoi
  rw [hct, strtol_of_digit_head c t hc, ← hct]
  unfold digitsValue
  rw [takeWhile_eq_self_of_all isdigit _ hdig, hval,
    clampLong_of_inRange _ (by omega) (by omega), toInt32_of_inRange _ (by omega) (by omega)]

/-- A token that is followed by the delimiter is cut there. -/
theorem strtok_r_token (tok rest : CStr) (d : Char) (hne : tok ≠ []) (hd : d ∉ tok) :
    strtok_r (tok ++ d :: rest) [d] = (some tok, rest) := by
  obtain ⟨c, t, rfl⟩ := List.exists_cons_of_ne_nil hne
  have hc : c ≠ d := fun h => hd (h ▸ List.mem_cons_self c t)
  have hall : ∀ a ∈ c :: t, (!decide (a ∈ [d])) = true := by
    intro a ha
    have : a ≠ d := fun h => hd (h ▸ ha)
    simp [this]
  have h1 : (c :: t ++ d :: rest).dropWhile (fun a => decide (a ∈ [d])) = c :: t ++ d :: rest := by
    rw [List.cons_append, List.dropWhile_cons_of_neg (by simp [hc])]
  have h2 : (c :: t ++ d :: rest).dropWhile (fun a => !decide (a ∈ [d])) = d :: rest := by
    rw [List.dropWhile_append_of_pos hall, List.dropWhile_cons_of_neg (by simp)]
  have h3 : (c :: t ++ d :: rest).takeWhile (fun a => !decide (a ∈ [d])) = c :: t := by
    rw [List.takeWhile_append_of_pos hall, List.takeWhile_cons_of_neg (by simp), List.append_nil]
  unfold strtok_r
  simp only [h1, h2, h3]
  simp

/-- A token that runs to the end of the string leaves an empty rest. -/
theorem strtok_r_last (tok : CStr) (d : Char) (hne : tok ≠ []) (hd : d ∉ tok) :
    strtok_r tok [d] = (some tok, []) := by
  obtain ⟨c, t, rfl⟩ := List.exists_cons_of_ne_nil hne
  have hc : c ≠ d := fun h => hd (h ▸ List.mem_cons_self c t)
  have hall : ∀ a ∈ c :: t, (!decide (a ∈ [d])) = true := by
    intro a ha
    have : a ≠ d := fun h => hd (h ▸ ha)
    simp [this]
  have h1 : (c :: t).dropWhile (fun a => decide (a ∈ [d])) = c :: t := by
    rw [List.dropWhile_cons_of_neg (by simp [hc])]
  have h2 : (c :: t).dropWhile (fun a => !decide (a ∈ [d])) = [] := by
    have := @List.dropWhile_append_of_pos Char _ (c :: t) [] hall
    simpa using this
  have h3 : (c :: t).takeWhile (fun a => !decide (a ∈ [d])) = c :: t :=
    takeWhile_eq_self_of_all _ _ hall
  unfold strtok_r
  simp only [h1, h2, h3]
  simp

theorem toDigits_not_mem (n : Nat) (d : Char) (hd : isdigit d = false) :
    d ∉ Nat.toDigits 10 n := by
  intro h
  have := (toDigits_spec n).2.1 d h
  rw [hd] at this
  exact absurd this (by decide)

theorem fmt_d_natCast (n : Nat) : fmt_d (n : Int) = Nat.toDigits 10 n := rfl

/-- Claim C5, within the range of `int`: for a non-empty path without `@` and numbers
`w`, `h`, `x`, `y` between 0 and `INT_MAX` written in decimal, `parse_tile` on
`path@WxH+X+Y` returns a tile with that path, the rectangle `(x, y, w, h)` and `frames = 0`,
and `print_tile` writes the input back, followed by a newline. -/
theorem parse_tile_spec_text (path : CStr) (w h x y : Nat) (hne : path ≠ []) (hat : '@' ∉ path)
    (hw : w ≤ 2147483647) (hh : h ≤ 2147483647) (hx : x ≤ 2147483647) (hy : y ≤ 2147483647) :
    ∃ t : tile_info_t, parse_tile (spec_text path w h x y) = .ok t ∧
      t.vid_filename = path ∧ t.tile_rect = { x := x, y := y, width := w, height := h } ∧
      t.frames = 0 ∧ print_tile t = spec_text path w h x y ++ [Char.ofNat 10] := by
  have e : spec_text path w h x y = path ++ '@' :: (Nat.toDigits 10 w ++ 'x' ::
      (Nat.toDigits 10 h ++ '+' :: (Nat.toDigits 10 x ++ '+' :: Nat.toDigits 10 y))) := by
    simp [spec_text]
  have hyne : (Nat.toDigits 10 y).length ≠ 0 := by
    simpa using (toDigits_spec y).1
  refine ⟨{ vid_filename := path, title := none,
            tile_rect := { x := x, y := y, width := w, height := h }, frames := 0 },
    ?_, rfl, rfl, rfl, ?_⟩
  · unfold parse_tile
    rw [e, strtok_r_token path _ _ hne hat]
    simp only [List.length_append, List.length_cons]
    rw [if_neg (by omega),
      strtok_r_token _ _ _ (toDigits_spec w).1 (toDigits_not_mem w _ (by decide))]
    simp only [List.length_append, List.length_cons]
    rw [if_neg (by omega),
      strtok_r_token _ _ _ (toDigits_spec h).1 (toDigits_not_mem h _ (by decide))]
    simp only [List.length_append, List.length_cons]
    rw [if_neg (by omega),
      strtok_r_token _ _ _ (toDigits_spec x).1 (toDigits_not_mem x _ (by decide))]
    simp only []
    rw [if_neg hyne, atoi_toDigits w hw, atoi_toDigits h hh, atoi_toDigits x hx,
      atoi_toDigits y hy]
  · simp [print_tile, fmt_d_natCast, spec_text]

/-- Instance of C5 from the specification: `clip.mp4@320x240+10+20`. -/
theorem parse_tile_spec_text_witness :
    ∃ t : tile_info_t, parse_tile "clip.mp4@320x240+10+20".toList = .ok t ∧
      t.vid_filename = "clip.mp4".toList ∧
      t.tile_rect = { x := 10, y := 20, width := 320, height := 240 } ∧
      t.frames = 0 ∧ print_tile t = "clip.mp4@320x240+10+20".toList ++ [Char.ofNat 10] :=
  parse_tile_spec_text "clip.mp4".toList 320 240 10 20 (by decide) (by decide) (by decide)
    (by decide) (by decide) (by decide)

/-- Claim C5 as stated fails beyond `INT_MAX`: the width `2147483648` written in decimal is
not the width of the tile that `parse_tile` returns. -/
theorem parse_tile_beyond_int_max :
    ['a'] ≠ [] ∧ '@' ∉ ['a'] ∧
      parse_tile (spec_text ['a'] 2147483648 1 0 0) =
        .ok { vid_filename := ['a'], title := none,
              tile_rect := { x := 0, y := 0, width := -2147483648, height := 1 }, frames := 0 } ∧
      parse_tile (spec_text ['a'] 2147483648 1 0 0) ≠
        .ok { vid_filename := ['a'], title := none,
              tile_rect := { x := 0, y := 0, width := 2147483648, height := 1 }, frames := 0 } := by
  decide

/-- A non-empty save pointer left by `strtok_r` sits right after a delimiter of the string. -/
theorem strtok_r_rest (s : CStr) (d : Char) (tok : Option CStr) (p : CStr)
    (h : strtok_r s [d] = (tok, p)) (hp : p ≠ []) : d :: p <:+ s := by
  unfold strtok_r at h
  by_cases h1 : s = []
  · rw [if_pos h1] at h
    exact absurd (Prod.mk.inj h).2.symm hp
  · rw [if_neg h1] at h
    dsimp only at h
    by_cases h2 : s.dropWhile (fun a => decide (a ∈ [d])) = []
    · rw [if_pos h2] at h
      exact absurd (Prod.mk.inj h).2.symm hp
    rw [if_neg h2] at h
    split at h
    · exact absurd (Prod.mk.inj h).2.symm hp
    · next c rest heq =>
      have hrest : rest = p := (Prod.mk.inj h).2
      subst hrest
      have hne : (s.dropWhile (fun a => decide (a ∈ [d]))).dropWhile
          (fun a => !decide (a ∈ [d])) ≠ [] := by
        rw [heq]
        exact List.cons_ne_nil _ _
      have hhead := List.head_dropWhile_not (fun a => !decide (a ∈ [d]))
        (s.dropWhile (fun a => decide (a ∈ [d]))) hne
      simp only [heq, List.head_cons] at hhead
      have hc : c = d := by simpa using hhead
      subst hc
      have hsuf1 := List.dropWhile_suffix (l := s.dropWhile (fun a => decide (a ∈ [c])))
        (fun a => !decide (a ∈ [c]))
      rw [heq] at hsuf1
      exact hsuf1.trans (List.dropWhile_suffix _)

/-- What follows a delimiter somewhere in `s` is part of what follows its first occurrence. -/
theorem cutAt_of_suffix (d : Char) (p : CStr) : ∀ s : CStr, d :: p <:+ s →
    ∃ a r, cutAt d s = some (a, r) ∧ p <:+ r := by
  intro s
  induction s with
  | nil =>
    intro h
    exact absurd (List.suffix_nil.1 h) (List.cons_ne_nil _ _)
  | cons c t ih =>
    intro h
    by_cases hc : c = d
    · refine ⟨[], t, by simp [cutAt, hc], ?_⟩
      rcases List.suffix_cons_iff.1 h with h1 | h1
      · injection h1 with _ h2
        exact h2 ▸ List.suffix_refl _
      · exact (List.suffix_cons d p).trans h1
    · rcases List.suffix_cons_iff.1 h with h1 | h1
      · injection h1 with h2 _
        exact absurd h2.symm hc
      · obtain ⟨a, r, har, hpr⟩ := ih h1
        exact ⟨c :: a, r, by simp [cutAt, hc, har], hpr⟩

/-- One split of `parse_tile` against one split of the grammar: when the save pointer `p`
lies inside the text `r` still to be split and `strtok_r` leaves a non-empty rest, the
grammar finds its delimiter in `r` too and the new rest lies inside the new text. -/
theorem strtok_r_cutAt (p r : CStr) (d : Char) (tok : Option CStr) (q : CStr)
    (hpr : p <:+ r) (h : strtok_r p [d] = (tok, q)) (hq : q ≠ []) :
    ∃ a r1, cutAt d r = some (a, r1) ∧ q <:+ r1 :=
  cutAt_of_suffix d q r ((strtok_r_rest p d tok q h hq).trans hpr)

theorem ne_nil_of_length_ne_zero (p : CStr) (h : ¬ p.length = 0) : p ≠ [] := by
  intro hp
  exact h (by rw [hp]; rfl)

/-- A tile comes back from `parse_tile` only when the grammar finds its four delimiters and
a non-empty text after the last one. -/
theorem fields_of_parse_tile_ok (s : CStr) (t : tile_info_t) (h : parse_tile s = .ok t) :
    tail_missing s = false := by
  unfold parse_tile at h
  split at h
  · exact absurd h (by simp)
  · next v p1 h1 =>
    split_ifs at h with hp1
    split at h
    · exact absurd h (by simp)
    · next w p2 h2 =>
      split_ifs at h with hp2
      split at h
      · exact absurd h (by simp)
      · next hh p3 h3 =>
        split_ifs at h with hp3
        split at h
        · exact absurd h (by simp)
        · next xo p4 h4 =>
          split_ifs at h with hp4
          obtain ⟨a1, r1, c1, s1⟩ := strtok_r_cutAt s s _ _ _ (List.suffix_refl s) h1
            (ne_nil_of_length_ne_zero _ hp1)
          obtain ⟨a2, r2, c2, s2⟩ := strtok_r_cutAt p1 r1 _ _ _ s1 h2
            (ne_nil_of_length_ne_zero _ hp2)
          obtain ⟨a3, r3, c3, s3⟩ := strtok_r_cutAt p2 r2 _ _ _ s2 h3
            (ne_nil_of_length_ne_zero _ hp3)
          obtain ⟨a4, r4, c4, s4⟩ := strtok_r_cutAt p3 r3 _ _ _ s3 h4
            (ne_nil_of_length_ne_zero _ hp4)
          have hr4 : r4 ≠ [] := by
            intro hr
            rw [hr] at s4
            exact ne_nil_of_length_ne_zero _ hp4 (List.suffix_nil.1 s4)
          simp [tail_missing, fields, c1, c2, c3, c4, hr4]

theorem cutAt_none (d : Char) : ∀ s : CStr, cutAt d s = none → d ∉ s := by
  intro s
  induction s with
  | nil => intro _; exact List.not_mem_nil d
  | cons c t ih =>
    intro h
    unfold cutAt at h
    by_cases hc : c = d
    · rw [if_pos hc] at h
      exact absurd h (by simp)
    · rw [if_neg hc] at h
      have ht : cutAt d t = none := by
        cases hcut : cutAt d t with
        | none => rfl
        | some r =>
          rw [hcut] at h
          exact absurd h (by simp)
      intro hmem
      rcases List.mem_cons.1 hmem with h1 | h1
      · exact hc h1.symm
      · exact ih ht h1

theorem cutAt_some (d : Char) : ∀ (s a r : CStr), cutAt d s = some (a, r) →
    s = a ++ d :: r ∧ d ∉ a := by
  intro s
  induction s with
  | nil =>
    intro a r h
    exact absurd h (by simp [cutAt])
  | cons c t ih =>
    intro a r h
    unfold cutAt at h
    by_cases hc : c = d
    · rw [if_pos hc] at h
      simp only [Option.some.injEq, Prod.mk.injEq] at h
      obtain ⟨ha, hr⟩ := h
      subst ha
      subst hr
      exact ⟨by rw [hc]; rfl, List.not_mem_nil d⟩
    · rw [if_neg hc] at h
      cases hcut : cutAt d t with
      | none =>
        rw [hcut] at h
        exact absurd h (by simp)
      | some q =>
        obtain ⟨a1, r1⟩ := q
        rw [hcut] at h
        simp only [Option.map_some', Option.some.injEq, Prod.mk.injEq] at h
        obtain ⟨ha, hr⟩ := h
        subst ha
        subst hr
        obtain ⟨hs, hd⟩ := ih a1 r1 hcut
        refine ⟨by rw [hs]; rfl, ?_⟩
        intro hmem
        rcases List.mem_cons.1 hmem with h1 | h1
        · exact hc h1.symm
        · exact hd h1

/-- On a non-empty text without the delimiter, `strtok_r` returns the whole text and
leaves nothing. -/
theorem strtok_r_cut_none (s : CStr) (d : Char) (hne : s ≠ []) (h : cutAt d s = none) :
    strtok_r s [d] = (some s, []) :=
  strtok_r_last s d hne (cutAt_none d s h)

/-- On a text whose part before the first delimiter is not empty, `strtok_r` splits as the
grammar does. -/
theorem strtok_r_cut_some (s a r : CStr) (d : Char) (h : cutAt d s = some (a, r))
    (ha : a ≠ []) : strtok_r s [d] = (some a, r) := by
  obtain ⟨hs, hd⟩ := cutAt_some d s a r h
  rw [hs]
  exact strtok_r_token a r d ha hd

/-- A field is missing exactly when the tail is missing or an inner field is empty. -/
theorem field_missing_eq (s : CStr) :
    field_missing s = (tail_missing s || empty_inner_field s) := by
  cases h1 : cutAt '@' s with
  | none => simp [field_missing, tail_missing, empty_inner_field, fields, h1]
  | some q1 =>
    obtain ⟨path, r1⟩ := q1
    cases h2 : cutAt 'x' r1 with
    | none => simp [field_missing, tail_missing, empty_inner_field, fields, h1, h2]
    | some q2 =>
      obtain ⟨w, r2⟩ := q2
      cases h3 : cutAt '+' r2 with
      | none => simp [field_missing, tail_missing, empty_inner_field, fields, h1, h2, h3]
      | some q3 =>
        obtain ⟨h, r3⟩ := q3
        cases h4 : cutAt '+' r3 with
        | none => simp [field_missing, tail_missing, empty_inner_field, fields, h1, h2, h3, h4]
        | some q4 =>
          obtain ⟨x, y⟩ := q4
          simp only [field_missing, tail_missing, empty_inner_field, fields, h1, h2, h3, h4]
          generalize decide (path = []) = b1
          generalize decide (w = []) = b2
          generalize decide (h = []) = b3
          generalize decide (x = []) = b4
          generalize decide (y = []) = b5
          cases b1 <;> cases b2 <;> cases b3 <;> cases b4 <;> cases b5 <;> rfl

/-- Claim C6, the part that the code does by design: for a non-empty tile specification
in which no field that ends at its delimiter is empty, when a delimiter is absent or the
text after the last delimiter is empty, `parse_tile` stops with the "Malformed tile
description" error and returns no tile. -/
theorem parse_tile_tail_missing (s : CStr) (hne : s ≠ []) (hin : empty_inner_field s = false)
    (hs : tail_missing s = true) : parse_tile s = .error .malformed := by
  unfold empty_inner_field at hin
  unfold tail_missing fields at hs
  unfold parse_tile
  cases h1 : cutAt '@' s with
  | none =>
    rw [strtok_r_cut_none s '@' hne h1]
    rfl
  | some q1 =>
    obtain ⟨path, r1⟩ := q1
    simp only [h1] at hin hs
    simp only [Bool.or_eq_false_iff, decide_eq_false_iff_not] at hin
    rw [strtok_r_cut_some s path r1 '@' h1 hin.1]
    simp only []
    by_cases hr1 : r1.length = 0
    · rw [if_pos hr1]
    rw [if_neg hr1]
    cases h2 : cutAt 'x' r1 with
    | none =>
      rw [strtok_r_cut_none r1 'x' (ne_nil_of_length_ne_zero r1 hr1) h2]
      rfl
    | some q2 =>
      obtain ⟨w, r2⟩ := q2
      simp only [h2] at hin hs
      simp only [Bool.or_eq_false_iff, decide_eq_false_iff_not] at hin
      rw [strtok_r_cut_some r1 w r2 'x' h2 hin.2.1]
      simp only []
      by_cases hr2 : r2.length = 0
      · rw [if_pos hr2]
      rw [if_neg hr2]
      cases h3 : cutAt '+' r2 with
      | none =>
        rw [strtok_r_cut_none r2 '+' (ne_nil_of_length_ne_zero r2 hr2) h3]
        rfl
      | some q3 =>
        obtain ⟨h, r3⟩ := q3
        simp only [h3] at hin hs
        simp only [Bool.or_eq_false_iff, decide_eq_false_iff_not] at hin
        rw [strtok_r_cut_some r2 h r3 '+' h3 hin.2.2.1]
        simp only []
        by_cases hr3 : r3.length = 0
        · rw [if_pos hr3]
        rw [if_neg hr3]
        cases h4 : cutAt '+' r3 with
        | none =>
          rw [strtok_r_cut_none r3 '+' (ne_nil_of_length_ne_zero r3 hr3) h4]
          rfl
        | some q4 =>
          obtain ⟨x, y⟩ := q4
          simp only [h4] at hin hs
          simp only [Bool.or_eq_false_iff, decide_eq_false_iff_not] at hin
          simp only [decide_eq_true_eq] at hs
          rw [strtok_r_cut_some r3 x y '+' h4 hin.2.2.2, hs]
          rfl

/-- Instance of C6 from the specification: `clip.mp4@320x240+10`, without the trailing
`+Y`, is rejected as malformed. -/
theorem parse_tile_tail_missing_witness :
    "clip.mp4@320x240+10".toList ≠ [] ∧
      empty_inner_field "clip.mp4@320x240+10".toList = false ∧
      tail_missing "clip.mp4@320x240+10".toList = true ∧
      parse_tile "clip.mp4@320x240+10".toList = .error .malformed :=
  ⟨by decide, by decide, by decide,
    parse_tile_tail_missing "clip.mp4@320x240+10".toList (by decide) (by decide) (by decide)⟩

/-- Claim C6 as stated fails: in `a@x1x2+3+4` the text between `@` and the first `x` (the
width) is empty, yet `parse_tile` returns a tile, of size 1x2 at (3, 4). -/
theorem parse_tile_accepts_empty_field :
    field_missing "a@x1x2+3+4".toList = true ∧
      parse_tile "a@x1x2+3+4".toList =
        .ok { vid_filename := ['a'], title := none,
              tile_rect := { x := 3, y := 4, width := 1, height := 2 }, frames := 0 } := by
  decide

/-! ## The layout pass -/

theorem maxOver_cons_cons {α : Type} (f : α → Int) (a b : α) (r : List α) :
    maxOver f (a :: b :: r) = max (f a) (maxOver f (b :: r)) := rfl

/-- Every value is below `maxOver`. -/
theorem le_maxOver {α : Type} (f : α → Int) : ∀ (l : List α) (a : α), a ∈ l →
    f a ≤ maxOver f l
  | [], _, h => absurd h (List.not_mem_nil _)
  | [b], a, h => by
    rw [List.mem_singleton.1 h]
    exact le_refl _
  | b :: c :: r, a, h => by
    rw [maxOver_cons_cons]
    rcases List.mem_cons.1 h with h1 | h1
    · rw [h1]
      exact le_max_left _ _
    · exact le_trans (le_maxOver f (c :: r) a h1) (le_max_right _ _)

/-- On a non-empty list `maxOver` is one of the values. -/
theorem maxOver_mem {α : Type} (f : α → Int) : ∀ (l : List α), l ≠ [] →
    ∃ a ∈ l, f a = maxOver f l
  | [], h => absurd rfl h
  | [b], _ => ⟨b, List.mem_singleton.2 rfl, rfl⟩
  | b :: c :: r, _ => by
    obtain ⟨a, ha, hfa⟩ := maxOver_mem f (c :: r) (List.cons_ne_nil _ _)
    rw [maxOver_cons_cons]
    rcases le_total (f b) (maxOver f (c :: r)) with h | h
    · exact ⟨a, List.mem_cons_of_mem _ ha, by rw [max_eq_right h, hfa]⟩
    · exact ⟨b, List.mem_cons_self _ _, by rw [max_eq_left h]⟩

theorem maxOver_congr {α : Type} (f g : α → Int) : ∀ (l : List α),
    (∀ a ∈ l, f a = g a) → maxOver f l = maxOver g l
  | [], _ => rfl
  | [b], h => h b (List.mem_singleton.2 rfl)
  | b :: c :: r, h => by
    rw [maxOver_cons_cons, maxOver_cons_cons, h b (List.mem_cons_self _ _),
      maxOver_congr f g (c :: r) (fun a ha => h a (List.mem_cons_of_mem _ ha))]

/-- A running maximum over a non-empty list ends at the larger of its start and the
largest value. -/
theorem foldl_max_cons {α : Type} (f : α → Int) : ∀ (r : List α) (b : α) (m : Int),
    (b :: r).foldl (fun m t => max m (f t)) m = max m (maxOver f (b :: r))
  | [], _, _ => rfl
  | c :: r, b, m => by
    rw [List.foldl_cons, foldl_max_cons f r c, maxOver_cons_cons, max_assoc]

/-- A running maximum started at 0 ends at `max 0` of the largest value. -/
theorem foldl_max_zero {α : Type} (f : α → Int) (l : List α) :
    l.foldl (fun m t => max m (f t)) 0 = max 0 (maxOver f l) := by
  cases l with
  | nil => rfl
  | cons b r => exact foldl_max_cons f r b 0

theorem probe_and_measure_x_max (w : World) : ∀ (tiles : List tile_info_t) (i : Nat)
    (acc : Layout), (probe_and_measure w i tiles acc).2.x_max =
      tiles.foldl (fun m t => max m (toInt32 (t.tile_rect.x + t.tile_rect.width))) acc.x_max := by
  intro tiles
  induction tiles with
  | nil => intro i acc; rfl
  | cons t ts ih =>
    intro i acc
    simp only [probe_and_measure, List.foldl_cons]
    rw [ih]
    congr 1
    split_ifs <;> (try dsimp only at *) <;> omega

theorem probe_and_measure_y_max (w : World) : ∀ (tiles : List tile_info_t) (i : Nat)
    (acc : Layout), (probe_and_measure w i tiles acc).2.y_max =
      tiles.foldl (fun m t => max m (toInt32 (t.tile_rect.y + t.tile_rect.height))) acc.y_max := by
  intro tiles
  induction tiles with
  | nil => intro i acc; rfl
  | cons t ts ih =>
    intro i acc
    simp only [probe_and_measure, List.foldl_cons]
    rw [ih]
    congr 1
    split_ifs <;> (try dsimp only at *) <;> omega

theorem probe_and_measure_max_frames (w : World) : ∀ (tiles : List tile_info_t) (i : Nat)
    (acc : Layout), (probe_and_measure w i tiles acc).2.max_frames =
      (probe_and_measure w i tiles acc).1.foldl (fun m t => max m t.frames) acc.max_frames := by
  intro tiles
  induction tiles with
  | nil => intro i acc; rfl
  | cons t ts ih =>
    intro i acc
    simp only [probe_and_measure, List.foldl_cons]
    rw [ih]
    congr 1
    split_ifs <;> (try dsimp only at *) <;> omega

/-- The layout pass changes nothing in a tile but its frame count, which it takes from the
source. -/
theorem probe_and_measure_tiles (w : World) : ∀ (tiles : List tile_info_t) (i : Nat)
    (acc : Layout) (j : Nat), (probe_and_measure w i tiles acc).1[j]? =
      tiles[j]?.map (fun t => { t with frames := w.frame_count (i + j) t.vid_filename }) := by
  intro tiles
  induction tiles with
  | nil => intro i acc j; rfl
  | cons t ts ih =>
    intro i acc j
    cases j with
    | zero => simp [probe_and_measure]
    | succ j =>
      simp only [probe_and_measure, List.getElem?_cons_succ]
      rw [ih]
      have : i + 1 + j = i + (j + 1) := by omega
      rw [this]

theorem measured_x_max (w : World) (tiles : List tile_info_t) :
    (measured w tiles).x_max =
      max 0 (maxOver (fun t => toInt32 (t.tile_rect.x + t.tile_rect.width)) tiles) := by
  unfold measured
  rw [probe_and_measure_x_max, foldl_max_zero]

theorem measured_y_max (w : World) (tiles : List tile_info_t) :
    (measured w tiles).y_max =
      max 0 (maxOver (fun t => toInt32 (t.tile_rect.y + t.tile_rect.height)) tiles) := by
  unfold measured
  rw [probe_and_measure_y_max, foldl_max_zero]

theorem measured_max_frames (w : World) (tiles : List tile_info_t) :
    (measured w tiles).max_frames = max 0 (maxOver (fun t => t.frames) (probed w tiles)) := by
  unfold measured probed
  rw [probe_and_measure_max_frames, foldl_max_zero]

theorem toInt32_of_fitsInt (v : Int) (h : fitsInt v = true) : toInt32 v = v := by
  simp only [fitsInt, Bool.and_eq_true, decide_eq_true_eq] at h
  exact toInt32_of_inRange v h.1 h.2

/-- With sums that are values of `int`, the canvas size is the pair of the largest right
edge and the largest bottom edge, each clamped below at 0. -/
theorem measured_extent (w : World) (tiles : List tile_info_t)
    (hx : ∀ t ∈ tiles, fitsInt (right_edge t) = true)
    (hy : ∀ t ∈ tiles, fitsInt (bottom_edge t) = true) :
    (measured w tiles).x_max = max 0 (maxOver right_edge tiles) ∧
      (measured w tiles).y_max = max 0 (maxOver bottom_edge tiles) := by
  refine ⟨?_, ?_⟩
  · rw [measured_x_max]
    congr 1
    exact maxOver_congr _ _ tiles (fun t ht => toInt32_of_fitsInt _ (hx t ht))
  · rw [measured_y_max]
    congr 1
    exact maxOver_congr _ _ tiles (fun t ht => toInt32_of_fitsInt _ (hy t ht))

/-- Claim C1, as the code has it: when the sums `x + width` and `y + height` are values of
`int`, the canvas size `(x_max, y_max)` of the layout pass is
`(max(0, max_i (x_i + w_i)), max(0, max_i (y_i + h_i)))`; so it is the largest right edge
(bottom edge) itself as soon as one tile has a non-negative one. -/
theorem canvas_size (w : World) (tiles : List tile_info_t)
    (hx : ∀ t ∈ tiles, fitsInt (right_edge t) = true)
    (hy : ∀ t ∈ tiles, fitsInt (bottom_edge t) = true) :
    (measured w tiles).x_max = max 0 (maxOver right_edge tiles) ∧
      (measured w tiles).y_max = max 0 (maxOver bottom_edge tiles) ∧
      ((∃ t ∈ tiles, 0 ≤ right_edge t) → (measured w tiles).x_max = maxOver right_edge tiles) ∧
      ((∃ t ∈ tiles, 0 ≤ bottom_edge t) →
        (measured w tiles).y_max = maxOver bottom_edge tiles) := by
  have ex := (measured_extent w tiles hx hy).1
  have ey := (measured_extent w tiles hx hy).2
  refine ⟨ex, ey, ?_, ?_⟩
  · rintro ⟨t, ht, h0⟩
    rw [ex]
    exact max_eq_right (le_trans h0 (le_maxOver right_edge tiles t ht))
  · rintro ⟨t, ht, h0⟩
    rw [ey]
    exact max_eq_right (le_trans h0 (le_maxOver bottom_edge tiles t ht))

/-- Instance of C1 from the specification: the tiles `100x100+0+0`, `100x100+100+0` and
`100x100+200+0` give a canvas of 300x100. -/
theorem canvas_size_witness :
    (measured exampleWorld [mkTile ['a'] 0 0 100 100, mkTile ['b'] 100 0 100 100,
        mkTile ['c'] 200 0 100 100]).x_max = 300 ∧
      (measured exampleWorld [mkTile ['a'] 0 0 100 100, mkTile ['b'] 100 0 100 100,
        mkTile ['c'] 200 0 100 100]).y_max = 100 :=
  ⟨(canvas_size exampleWorld [mkTile ['a'] 0 0 100 100, mkTile ['b'] 100 0 100 100,
      mkTile ['c'] 200 0 100 100] (by decide) (by decide)).1,
    (canvas_size exampleWorld [mkTile ['a'] 0 0 100 100, mkTile ['b'] 100 0 100 100,
      mkTile ['c'] 200 0 100 100] (by decide) (by decide)).2.1⟩

/-- Claim C1 as stated fails: for the single tile `5x5+-10+0` the canvas is 0 wide while the
tile's right edge is -5; and for the single tile `1x1+2147483647+0` the right edge
2147483648 is no value of `int`. -/
theorem canvas_size_not_max :
    (measured exampleWorld [mkTile ['a'] (-10) 0 5 5]).x_max = 0 ∧
      maxOver right_edge [mkTile ['a'] (-10) 0 5 5] = -5 ∧
      (measured exampleWorld [mkTile ['a'] 2147483647 0 1 1]).x_max = 0 ∧
      maxOver right_edge [mkTile ['a'] 2147483647 0 1 1] = 2147483648 := by
  decide

/-- Claim C8, as the code has it: when the sums `x + width` and `y + height` are values of
`int`, every tile has `x_offset + width ≤ canvas_width` and
`y_offset + height ≤ canvas_height` (for the tiles that `parse_tile` returns, as for any
others). -/
theorem tiles_within_canvas (w : World) (tiles : List tile_info_t)
    (hx : ∀ t ∈ tiles, fitsInt (right_edge t) = true)
    (hy : ∀ t ∈ tiles, fitsInt (bottom_edge t) = true) :
    ∀ t ∈ tiles, right_edge t ≤ (measured w tiles).x_max ∧
      bottom_edge t ≤ (measured w tiles).y_max := by
  intro t ht
  rw [(measured_extent w tiles hx hy).1, (measured_extent w tiles hx hy).2]
  exact ⟨le_trans (le_maxOver right_edge tiles t ht) (le_max_right _ _),
    le_trans (le_maxOver bottom_edge tiles t ht) (le_max_right _ _)⟩

/-- Instance of C8: the tiles parsed from `a@320x240+10+20` and `b@100x100+0+300` lie
within the canvas computed from them. -/
theorem tiles_within_canvas_witness :
    parse_tiles ["a@320x240+10+20".toList, "b@100x100+0+300".toList] =
        .ok [mkTile ['a'] 10 20 320 240, mkTile ['b'] 0 300 100 100] ∧
      ∀ t ∈ [mkTile ['a'] 10 20 320 240, mkTile ['b'] 0 300 100 100],
        right_edge t ≤ (measured exampleWorld
          [mkTile ['a'] 10 20 320 240, mkTile ['b'] 0 300 100 100]).x_max ∧
        bottom_edge t ≤ (measured exampleWorld
          [mkTile ['a'] 10 20 320 240, mkTile ['b'] 0 300 100 100]).y_max :=
  ⟨by decide, tiles_within_canvas exampleWorld
    [mkTile ['a'] 10 20 320 240, mkTile ['b'] 0 300 100 100] (by decide) (by decide)⟩

/-- Claim C8 as stated fails: `parse_tile` returns the tile of `a@5x5+-10+0` with the
negative offset -10; and the tile of `a@1x1+2147483647+0` has its right edge beyond the
canvas width. -/
theorem parsed_tile_outside_canvas :
    parse_tiles ["a@5x5+-10+0".toList] = .ok [mkTile ['a'] (-10) 0 5 5] ∧
      (mkTile ['a'] (-10) 0 5 5).tile_rect.x < 0 ∧
      parse_tiles ["a@1x1+2147483647+0".toList] = .ok [mkTile ['a'] 2147483647 0 1 1] ∧
      (measured exampleWorld [mkTile ['a'] 2147483647 0 1 1]).x_max <
        right_edge (mkTile ['a'] 2147483647 0 1 1) := by
  decide

/-! ## The compositing loop -/

/-- A tile at index `j` splits the list into the tiles painted before it and those painted
after it, which are the tiles of larger index. -/
theorem split_at_index : ∀ (l : List tile_info_t) (j : Nat) (t : tile_info_t), l[j]? = some t →
    ∃ pre post, l = pre ++ t :: post ∧ pre.length = j ∧
      ∀ u ∈ post, ∃ k, j < k ∧ l[k]? = some u := by
  intro l
  induction l with
  | nil => intro j t h; simp at h
  | cons a r ih =>
    intro j t h
    cases j with
    | zero =>
      simp only [List.getElem?_cons_zero, Option.some.injEq] at h
      subst h
      refine ⟨[], r, rfl, rfl, ?_⟩
      intro u hu
      obtain ⟨k, hk⟩ := List.mem_iff_getElem?.1 hu
      exact ⟨k + 1, Nat.succ_pos k, by simpa using hk⟩
    | succ j =>
      simp only [List.getElem?_cons_succ] at h
      obtain ⟨pre, post, hl, hlen, hpost⟩ := ih j t h
      refine ⟨a :: pre, post, by rw [hl]; rfl, by simp [hlen], ?_⟩
      intro u hu
      obtain ⟨k, hk, hku⟩ := hpost u hu
      exact ⟨k + 1, by omega, by simpa using hku⟩

theorem after_succ (w : World) (tiles : List tile_info_t) (st : LoopState) (n : Nat) :
    after w tiles st (n + 1) = frame_step w tiles (after w tiles st n) n := by
  simp [after, List.range_succ, List.foldl_append]

theorem paint_tiles_cons (w : World) (f k : Nat) (t : tile_info_t) (ts : List tile_info_t)
    (st : LoopState) :
    paint_tiles w f k (t :: ts) st = paint_tiles w f (k + 1) ts (paint_tile w f k t st) := rfl

theorem paint_tile_written (w : World) (f i : Nat) (t : tile_info_t) (st : LoopState) :
    (paint_tile w f i t st).written = st.written := by
  unfold paint_tile
  split_ifs <;> rfl

theorem paint_tiles_written (w : World) (f : Nat) : ∀ (ts : List tile_info_t) (k : Nat)
    (st : LoopState), (paint_tiles w f k ts st).written = st.written := by
  intro ts
  induction ts with
  | nil => intro k st; rfl
  | cons t ts ih =>
    intro k st
    simp only [paint_tiles]
    rw [ih, paint_tile_written]

theorem paint_tile_next (w : World) (f i : Nat) (t : tile_info_t) (st : LoopState) (j : Nat) :
    (paint_tile w f i t st).next j =
      if j = i ∧ t.frames > (f : Int) then st.next j + 1 else st.next j := by
  unfold paint_tile
  by_cases hact : t.frames > (f : Int)
  · by_cases hj : j = i
    · subst hj
      simp [hact]
    · simp [hact, hj, Function.update_noteq hj]
  · simp [hact]

theorem paint_tiles_next_lt (w : World) (f : Nat) : ∀ (ts : List tile_info_t) (k : Nat)
    (st : LoopState) (j : Nat), j < k → (paint_tiles w f k ts st).next j = st.next j := by
  intro ts
  induction ts with
  | nil => intro k st j _; rfl
  | cons t ts ih =>
    intro k st j hj
    simp only [paint_tiles]
    rw [ih (k + 1) _ j (by omega), paint_tile_next, if_neg (by omega)]

/-- One pass over the tiles advances the capture of a tile by one read when the tile is
active at this frame, and not at all otherwise. -/
theorem paint_tiles_next_at (w : World) (f : Nat) (t : tile_info_t) (post : List tile_info_t) :
    ∀ (pre : List tile_info_t) (k : Nat) (st : LoopState),
      (paint_tiles w f k (pre ++ t :: post) st).next (k + pre.length) =
        st.next (k + pre.length) + if t.frames > (f : Int) then 1 else 0 := by
  intro pre
  induction pre with
  | nil =>
    intro k st
    simp only [List.nil_append, paint_tiles, List.length_nil, Nat.add_zero]
    rw [paint_tiles_next_lt w f post (k + 1) _ k (by omega), paint_tile_next]
    split_ifs with h1 h2 h2
    · rfl
    · exact absurd h1.2 h2
    · exact absurd ⟨rfl, h2⟩ h1
    · rfl
  | cons a pre ih =>
    intro k st
    rw [List.cons_append, paint_tiles_cons, List.length_cons]
    have e : k + (pre.length + 1) = k + 1 + pre.length := by omega
    rw [e, ih (k + 1), paint_tile_next, if_neg (by omega)]

theorem paint_tile_reads (w : World) (f i : Nat) (t : tile_info_t) (st : LoopState) (j : Nat) :
    reads_of j (paint_tile w f i t st) =
      reads_of j st ++ if i = j ∧ t.frames > (f : Int) then [f] else [] := by
  unfold paint_tile reads_of
  by_cases hact : t.frames > (f : Int)
  · by_cases hj : i = j
    · simp [hact, hj]
    · simp [hact, hj]
  · simp [hact]

theorem paint_tiles_reads_lt (w : World) (f : Nat) : ∀ (ts : List tile_info_t) (k : Nat)
    (st : LoopState) (j : Nat), j < k → reads_of j (paint_tiles w f k ts st) = reads_of j st := by
  intro ts
  induction ts with
  | nil => intro k st j _; rfl
  | cons t ts ih =>
    intro k st j hj
    simp only [paint_tiles]
    rw [ih (k + 1) _ j (by omega), paint_tile_reads, if_neg (by omega), List.append_nil]

/-- One pass over the tiles reads the capture of a tile once, at this frame, when the tile
is active, and not at all otherwise. -/
theorem paint_tiles_reads_at (w : World) (f : Nat) (t : tile_info_t) (post : List tile_info_t) :
    ∀ (pre : List tile_info_t) (k : Nat) (st : LoopState),
      reads_of (k + pre.length) (paint_tiles w f k (pre ++ t :: post) st) =
        reads_of (k + pre.length) st ++ if t.frames > (f : Int) then [f] else [] := by
  intro pre
  induction pre with
  | nil =>
    intro k st
    simp only [List.nil_append, paint_tiles, List.length_nil, Nat.add_zero]
    rw [paint_tiles_reads_lt w f post (k + 1) _ k (by omega), paint_tile_reads]
    split_ifs with h1 h2 h2
    · rfl
    · exact absurd h1.2 h2
    · exact absurd ⟨rfl, h2⟩ h1
    · rfl
  | cons a pre ih =>
    intro k st
    rw [List.cons_append, paint_tiles_cons, List.length_cons]
    have e : k + (pre.length + 1) = k + 1 + pre.length := by omega
    rw [e, ih (k + 1), paint_tile_reads, if_neg (by omega), List.append_nil]

/-- A pixel that lies in no rectangle of an active tile keeps its value through the pass
over the tiles. -/
theorem paint_tiles_untouched (w : World) (f : Nat) (x y : Int) : ∀ (ts : List tile_info_t)
    (k : Nat) (st : LoopState),
    (∀ t ∈ ts, t.frames > (f : Int) → t.tile_rect.contains x y = false) →
      (paint_tiles w f k ts st).comp_frame x y = st.comp_frame x y := by
  intro ts
  induction ts with
  | nil => intro k st _; rfl
  | cons t ts ih =>
    intro k st h
    simp only [paint_tiles]
    rw [ih (k + 1) _ (fun u hu => h u (List.mem_cons_of_mem _ hu))]
    unfold paint_tile
    split_ifs with hact
    · simp only [blit]
      rw [h t (List.mem_cons_self _ _) hact]
      rfl
    · rfl

/-- After the pass over the tiles, a pixel shows the resized frame just read for the last
active tile whose rectangle holds it. -/
theorem paint_tiles_last (w : World) (f : Nat) (x y : Int) (t : tile_info_t)
    (post : List tile_info_t) (hact : t.frames > (f : Int))
    (hin : t.tile_rect.contains x y = true)
    (hpost : ∀ u ∈ post, u.frames > (f : Int) → u.tile_rect.contains x y = false) :
    ∀ (pre : List tile_info_t) (k : Nat) (st : LoopState),
      (paint_tiles w f k (pre ++ t :: post) st).comp_frame x y =
        w.resize (w.read (k + pre.length) (st.next (k + pre.length)))
          t.tile_rect.width t.tile_rect.height (x - t.tile_rect.x) (y - t.tile_rect.y) := by
  intro pre
  induction pre with
  | nil =>
    intro k st
    simp only [List.nil_append, paint_tiles, List.length_nil, Nat.add_zero]
    rw [paint_tiles_untouched w f x y post (k + 1) _ hpost]
    unfold paint_tile
    rw [if_pos hact]
    simp only [blit]
    rw [hin]
    rfl
  | cons a pre ih =>
    intro k st
    rw [List.cons_append, paint_tiles_cons, List.length_cons]
    have e : k + (pre.length + 1) = k + 1 + pre.length := by omega
    rw [e, ih (k + 1), paint_tile_next, if_neg (by omega)]

theorem frame_step_comp_frame (w : World) (tiles : List tile_info_t) (st : LoopState) (f : Nat) :
    (frame_step w tiles st f).comp_frame = (paint_tiles w f 0 tiles st).comp_frame := rfl

theorem frame_step_next (w : World) (tiles : List tile_info_t) (st : LoopState) (f : Nat) :
    (frame_step w tiles st f).next = (paint_tiles w f 0 tiles st).next := rfl

theorem frame_step_reads (w : World) (tiles : List tile_info_t) (st : LoopState) (f j : Nat) :
    reads_of j (frame_step w tiles st f) = reads_of j (paint_tiles w f 0 tiles st) := rfl

theorem frame_step_written (w : World) (tiles : List tile_info_t) (st : LoopState) (f : Nat) :
    (frame_step w tiles st f).written = st.written ++ [(frame_step w tiles st f).comp_frame] := by
  simp only [frame_step]
  rw [paint_tiles_written]

/-- The canvases written by the first `n` iterations are the canvases at the end of each
of them, in order. -/
theorem after_written (w : World) (tiles : List tile_info_t) (st : LoopState) : ∀ n : Nat,
    (after w tiles st n).written =
      st.written ++ (List.range n).map (fun f => (after w tiles st (f + 1)).comp_frame) := by
  intro n
  induction n with
  | zero => simp [after]
  | succ n ih =>
    rw [after_succ, frame_step_written, ih, List.range_succ, List.map_append, ← after_succ]
    simp

/-- The canvas written for frame `f`, when the loop runs at least `f + 1` iterations. -/
theorem written_at (w : World) (tiles : List tile_info_t) (canvas : Image) (n f : Nat)
    (hf : f < n) : (after w tiles (LoopState.initial canvas) n).written[f]? =
      some (after w tiles (LoopState.initial canvas) (f + 1)).comp_frame := by
  rw [after_written]
  simp [LoopState.initial, List.getElem?_map, List.getElem?_range hf]

/-- Before iteration `n` the capture of a tile has served `min n frames` reads. -/
theorem after_next (w : World) (pre post : List tile_info_t) (t : tile_info_t) (canvas : Image) :
    ∀ n : Nat, (after w (pre ++ t :: post) (LoopState.initial canvas) n).next pre.length =
      min n t.frames.toNat := by
  intro n
  induction n with
  | zero => simp [after, LoopState.initial]
  | succ n ih =>
    rw [after_succ, frame_step_next]
    have := paint_tiles_next_at w n t post pre 0
      (after w (pre ++ t :: post) (LoopState.initial canvas) n)
    rw [Nat.zero_add] at this
    rw [this, ih]
    split_ifs <;> omega

/-- The reads of the capture of a tile during the first `n` iterations happen at the frame
indices below `min n frames`, in increasing order. -/
theorem after_reads (w : World) (pre post : List tile_info_t) (t : tile_info_t) (canvas : Image) :
    ∀ n : Nat, reads_of pre.length (after w (pre ++ t :: post) (LoopState.initial canvas) n) =
      List.range (min n t.frames.toNat) := by
  intro n
  induction n with
  | zero => simp [after, LoopState.initial, reads_of]
  | succ n ih =>
    rw [after_succ, frame_step_reads]
    have := paint_tiles_reads_at w n t post pre 0
      (after w (pre ++ t :: post) (LoopState.initial canvas) n)
    rw [Nat.zero_add] at this
    rw [this, ih]
    split_ifs with h
    · have e1 : min n t.frames.toNat = n := by omega
      have e2 : min (n + 1) t.frames.toNat = n + 1 := by omega
      rw [e1, e2, List.range_succ]
    · have e1 : min (n + 1) t.frames.toNat = min n t.frames.toNat := by omega
      rw [e1, List.append_nil]

theorem after_written_length (w : World) (tiles : List tile_info_t) (canvas : Image) (n : Nat) :
    (after w tiles (LoopState.initial canvas) n).written.length = n := by
  rw [after_written]
  simp [LoopState.initial]

/-- No tile has more frames than `max_frames`. -/
theorem frames_le_max_frames (w : World) (tiles : List tile_info_t) (t : tile_info_t)
    (ht : t ∈ probed w tiles) : t.frames ≤ (measured w tiles).max_frames := by
  rw [measured_max_frames]
  exact le_trans (le_maxOver _ _ t ht) (le_max_right _ _)

theorem run_eq_after (w : World) (tiles : List tile_info_t) :
    run w tiles = after w (probed w tiles) (LoopState.initial w.fresh)
      (measured w tiles).max_frames.toNat := rfl

/-! ## The loop with its exceptions against the loop without -/

theorem paint_tile_checked_ok (w : World) (lay : Layout) (f i : Nat) (t : tile_info_t)
    (st : LoopState)
    (h : t.frames > (f : Int) → roi_ok lay t.tile_rect = true ∧
      w.read_empty i (st.next i) = false ∧ t.tile_rect.width * t.tile_rect.height ≠ 0) :
    paint_tile_checked w lay f i t st = .ok (paint_tile w f i t st) := by
  unfold paint_tile_checked
  by_cases hact : t.frames > (f : Int)
  · obtain ⟨h1, h2, h3⟩ := h hact
    rw [if_pos hact]
    simp only [h1, h2, h3]
    simp
  · rw [if_neg hact]
    unfold paint_tile
    rw [if_neg hact]

/-- A pass over the tiles in which no active tile makes OpenCV throw ends normally, in the
state of `paint_tiles`. -/
theorem paint_tiles_checked_ok (w : World) (lay : Layout) (f : Nat) :
    ∀ (ts : List tile_info_t) (k : Nat) (st : LoopState),
      (∀ (m : Nat) (t : tile_info_t), ts[m]? = some t → t.frames > (f : Int) →
        roi_ok lay t.tile_rect = true ∧ w.read_empty (k + m) (st.next (k + m)) = false ∧
          t.tile_rect.width * t.tile_rect.height ≠ 0) →
      paint_tiles_checked w lay f k ts st = .ok (paint_tiles w f k ts st) := by
  intro ts
  induction ts with
  | nil => intro k st _; rfl
  | cons t ts ih =>
    intro k st h
    have h0 := h 0 t (List.getElem?_cons_zero)
    rw [Nat.add_zero] at h0
    unfold paint_tiles_checked
    rw [paint_tile_checked_ok w lay f k t st h0, paint_tiles_cons]
    simp only []
    apply ih
    intro m u hu hact
    have hm := h (m + 1) u (by simpa using hu) hact
    have e : k + (m + 1) = k + 1 + m := by omega
    rw [e] at hm
    rw [paint_tile_next, if_neg (by omega)]
    exact hm

/-- When every tile that is ever active has its region within the canvas and a size that is
not empty, and every source delivers a frame on each read below its frame count, no
iteration throws and the loop is in the state of `after`. -/
theorem after_checked_ok (w : World) (lay : Layout) (tiles : List tile_info_t) (canvas : Image)
    (hgeo : ∀ t ∈ tiles, 0 < t.frames → roi_ok lay t.tile_rect = true ∧
      t.tile_rect.width * t.tile_rect.height ≠ 0)
    (hread : ∀ (i : Nat) (t : tile_info_t), tiles[i]? = some t → ∀ k : Nat,
      (k : Int) < t.frames → w.read_empty i k = false) :
    ∀ n : Nat, after_checked w lay tiles (LoopState.initial canvas) n =
      .ok (after w tiles (LoopState.initial canvas) n) := by
  intro n
  induction n with
  | zero => rfl
  | succ n ih =>
    unfold after_checked
    rw [ih]
    simp only []
    unfold frame_step_checked
    rw [paint_tiles_checked_ok w lay n tiles 0 _ ?_]
    · rw [after_succ]
      rfl
    · intro m t hm hact
      have hmem : t ∈ tiles := List.mem_iff_getElem?.2 ⟨m, hm⟩
      obtain ⟨h1, h2⟩ := hgeo t hmem (by omega)
      obtain ⟨pre, post, hsplit, hlen, _⟩ := split_at_index tiles m t hm
      have hnext : (after w tiles (LoopState.initial canvas) n).next m = n := by
        rw [hsplit, ← hlen, after_next]
        omega
      rw [Nat.zero_add, hnext]
      exact ⟨h1, hread m t hm n (by omega), h2⟩

theorem paint_tile_checked_eq (w : World) (lay : Layout) (f i : Nat) (t : tile_info_t)
    (st : LoopState) :
    (∀ st1, paint_tile_checked w lay f i t st = .ok st1 → st1 = paint_tile w f i t st) ∧
      (∀ e, paint_tile_checked w lay f i t st = .error e → e.written = st.written) := by
  unfold paint_tile_checked
  by_cases hact : t.frames > (f : Int)
  · rw [if_pos hact]
    simp only []
    refine ⟨?_, ?_⟩
    · intro st1 h
      split_ifs at h
      injection h with h
      exact h.symm
    · intro e h
      split_ifs at h <;> (injection h with h; rw [← h])
  · rw [if_neg hact]
    refine ⟨?_, ?_⟩
    · intro st1 h
      injection h with h
      unfold paint_tile
      rw [if_neg hact, h]
    · intro e h
      exact absurd h (by simp)

theorem paint_tiles_checked_eq (w : World) (lay : Layout) (f : Nat) :
    ∀ (ts : List tile_info_t) (k : Nat) (st : LoopState),
      (∀ st1, paint_tiles_checked w lay f k ts st = .ok st1 → st1 = paint_tiles w f k ts st) ∧
        (∀ e, paint_tiles_checked w lay f k ts st = .error e → e.written = st.written) := by
  intro ts
  induction ts with
  | nil =>
    intro k st
    refine ⟨?_, ?_⟩
    · intro st1 h
      injection h with h
      exact h.symm
    · intro e h
      exact absurd h (by simp [paint_tiles_checked])
  | cons t ts ih =>
    intro k st
    unfold paint_tiles_checked
    cases hp : paint_tile_checked w lay f k t st with
    | error e0 =>
      simp only []
      refine ⟨?_, ?_⟩
      · intro st1 h
        exact absurd h (by simp)
      · intro e h
        injection h with h
        rw [← h]
        exact (paint_tile_checked_eq w lay f k t st).2 e0 hp
    | ok st0 =>
      simp only []
      have h0 := (paint_tile_checked_eq w lay f k t st).1 st0 hp
      subst h0
      refine ⟨?_, ?_⟩
      · intro st1 h
        rw [paint_tiles_cons]
        exact (ih (k + 1) _).1 st1 h
      · intro e h
        rw [(ih (k + 1) _).2 e h, paint_tile_written]

theorem after_written_extends (w : World) (tiles : List tile_info_t) (st : LoopState) (m : Nat) :
    ∀ d : Nat, ∃ rest : List Image,
      (after w tiles st (m + d)).written = (after w tiles st m).written ++ rest := by
  intro d
  induction d with
  | zero => exact ⟨[], by simp⟩
  | succ d ih =>
    obtain ⟨rest, hrest⟩ := ih
    have e : m + (d + 1) = m + d + 1 := by omega
    rw [e, after_succ, frame_step_written, hrest, ← after_succ]
    exact ⟨rest ++ [(after w tiles st (m + d + 1)).comp_frame], by simp⟩

/-- Whatever happens, the loop with its exceptions goes through states of `after`: it ends
normally in the state of `after`, and the canvases written before an exception are those of
the first iterations of `after`. -/
theorem after_checked_eq (w : World) (lay : Layout) (tiles : List tile_info_t) (st : LoopState) :
    ∀ n : Nat,
      (∀ st1, after_checked w lay tiles st n = .ok st1 → st1 = after w tiles st n) ∧
        (∀ e, after_checked w lay tiles st n = .error e →
          ∃ m, m < n ∧ e.written = (after w tiles st m).written) := by
  intro n
  induction n with
  | zero =>
    refine ⟨?_, ?_⟩
    · intro st1 h
      injection h with h
      exact h.symm
    · intro e h
      exact absurd h (by simp [after_checked])
  | succ n ih =>
    unfold after_checked
    cases hp : after_checked w lay tiles st n with
    | error e0 =>
      simp only []
      refine ⟨?_, ?_⟩
      · intro st1 h
        exact absurd h (by simp)
      · intro e h
        injection h with h
        obtain ⟨m, hm, hw⟩ := ih.2 e0 hp
        exact ⟨m, by omega, by rw [← h, hw]⟩
    | ok st0 =>
      simp only []
      have h0 := ih.1 st0 hp
      subst h0
      unfold frame_step_checked
      cases hq : paint_tiles_checked w lay n 0 tiles (after w tiles st n) with
      | error e1 =>
        simp only []
        refine ⟨?_, ?_⟩
        · intro st1 h
          exact absurd h (by simp)
        · intro e h
          injection h with h
          exact ⟨n, by omega, by
            rw [← h, (paint_tiles_checked_eq w lay n tiles 0 _).2 e1 hq]⟩
      | ok st2 =>
        simp only []
        have h2 := (paint_tiles_checked_eq w lay n tiles 0 _).1 st2 hq
        subst h2
        refine ⟨?_, ?_⟩
        · intro st1 h
          injection h with h
          rw [after_succ, ← h]
          rfl
        · intro e h
          exact absurd h (by simp)

/-- The canvases that the program writes are, in order, the first canvases of `run`: all
of them when the loop ends normally, those of the iterations before the exception
otherwise. -/
theorem run_checked_written (w : World) (tiles : List tile_info_t) :
    ∃ rest : List Image,
      (run w tiles).written = (final_state (run_checked w tiles)).written ++ rest ∧
      (threw (run_checked w tiles) = false → rest = []) := by
  unfold run_checked
  cases hp : after_checked w (measured w tiles) (probed w tiles) (LoopState.initial w.fresh)
      (measured w tiles).max_frames.toNat with
  | ok st1 =>
    have h := (after_checked_eq w _ _ _ _).1 st1 hp
    refine ⟨[], ?_, fun _ => rfl⟩
    rw [run_eq_after, h]
    simp [final_state]
  | error e =>
    obtain ⟨m, hm, hw⟩ := (after_checked_eq w _ _ _ _).2 e hp
    obtain ⟨rest, hrest⟩ := after_written_extends w (probed w tiles) (LoopState.initial w.fresh) m
      ((measured w tiles).max_frames.toNat - m)
    refine ⟨rest, ?_, ?_⟩
    · have e1 : m + ((measured w tiles).max_frames.toNat - m) =
          (measured w tiles).max_frames.toNat := by omega
      rw [e1] at hrest
      rw [run_eq_after, hrest]
      simp [final_state, hw]
    · intro h
      simp [threw] at h

/-- The layout pass leaves the rectangles as they are. -/
theorem probed_rect (w : World) (tiles : List tile_info_t) (t : tile_info_t)
    (ht : t ∈ probed w tiles) : ∃ t0 ∈ tiles, t0.tile_rect = t.tile_rect := by
  obtain ⟨j, hj⟩ := List.mem_iff_getElem?.1 ht
  unfold probed at hj
  rw [probe_and_measure_tiles] at hj
  cases h0 : tiles[j]? with
  | none =>
    rw [h0] at hj
    exact absurd hj (by simp)
  | some t0 =>
    rw [h0] at hj
    simp only [Option.map_some', Option.some.injEq] at hj
    exact ⟨t0, List.mem_iff_getElem?.2 ⟨j, h0⟩, by rw [← hj]⟩

/-- A paintable tile passes the checks of OpenCV on the canvas of the layout pass. -/
theorem roi_ok_of_paintable (w : World) (tiles : List tile_info_t) (t : tile_info_t)
    (ht : t ∈ probed w tiles) (hp : paintable t = true) :
    roi_ok (measured w tiles) t.tile_rect = true ∧
      t.tile_rect.width * t.tile_rect.height ≠ 0 := by
  simp only [paintable, Bool.and_eq_true, decide_eq_true_eq] at hp
  obtain ⟨⟨⟨⟨⟨hx, hy⟩, hw⟩, hh⟩, hr⟩, hb⟩ := hp
  obtain ⟨t0, ht0, hrect⟩ := probed_rect w tiles t ht
  have hxm : toInt32 (t.tile_rect.x + t.tile_rect.width) ≤ (measured w tiles).x_max := by
    have h := le_maxOver (fun u => toInt32 (u.tile_rect.x + u.tile_rect.width)) tiles t0 ht0
    simp only [hrect] at h
    rw [measured_x_max]
    exact le_trans h (le_max_right _ _)
  have hym : toInt32 (t.tile_rect.y + t.tile_rect.height) ≤ (measured w tiles).y_max := by
    have h := le_maxOver (fun u => toInt32 (u.tile_rect.y + u.tile_rect.height)) tiles t0 ht0
    simp only [hrect] at h
    rw [measured_y_max]
    exact le_trans h (le_max_right _ _)
  refine ⟨?_, ?_⟩
  · simp only [roi_ok, Bool.and_eq_true, decide_eq_true_eq]
    exact ⟨⟨⟨⟨⟨hx, le_of_lt hw⟩, hxm⟩, hy⟩, le_of_lt hh⟩, hym⟩
  · exact ne_of_gt (mul_pos hw hh)

/-- With paintable active tiles and sources that deliver their frames, the loop of the
program ends normally, in the state of `run`. -/
theorem run_checked_ok (w : World) (tiles : List tile_info_t)
    (hgeom : ∀ t ∈ probed w tiles, 0 < t.frames → paintable t = true)
    (hread : ∀ (i : Nat) (t : tile_info_t), (probed w tiles)[i]? = some t → ∀ k : Nat,
      (k : Int) < t.frames → w.read_empty i k = false) :
    run_checked w tiles = .ok (run w tiles) := by
  unfold run_checked
  rw [run_eq_after]
  exact after_checked_ok w _ _ _
    (fun t ht hpos => roi_ok_of_paintable w tiles t ht (hgeom t ht hpos)) hread _

/-- Claim C2, as the code has it: when every tile with a positive frame count is paintable
(offsets not negative, width and height positive, edges within `int`) and every source
delivers a frame on each read below its frame count, the loop of the program ends normally
after `max(0, max_i f_i)` iterations with one canvas written in each, so that many frames
are written; this is `max_i f_i` as soon as one frame count is not negative. -/
theorem frames_written (w : World) (tiles : List tile_info_t)
    (hgeom : ∀ t ∈ probed w tiles, 0 < t.frames → paintable t = true)
    (hread : ∀ (i : Nat) (t : tile_info_t), (probed w tiles)[i]? = some t → ∀ k : Nat,
      (k : Int) < t.frames → w.read_empty i k = false) :
    ∃ st : LoopState, run_checked w tiles = .ok st ∧
      (st.written.length : Int) = max 0 (maxOver (fun t => t.frames) (probed w tiles)) ∧
      ((∃ t ∈ probed w tiles, 0 ≤ t.frames) →
        (st.written.length : Int) = maxOver (fun t => t.frames) (probed w tiles)) := by
  have e : ((run w tiles).written.length : Int) =
      max 0 (maxOver (fun t => t.frames) (probed w tiles)) := by
    rw [run_eq_after, after_written_length, measured_max_frames]
    omega
  refine ⟨run w tiles, run_checked_ok w tiles hgeom hread, e, ?_⟩
  rintro ⟨t, ht, h0⟩
  rw [e]
  exact max_eq_right (le_trans h0 (le_maxOver _ _ t ht))

/-- Instance of C2 from the specification: frame counts 10, 25 and 5 give 25 written
frames. -/
theorem frames_written_witness :
    ∃ st : LoopState, run_checked raggedWorld [mkTile ['a'] 0 0 1 1, mkTile ['b'] 1 0 1 1,
        mkTile ['c'] 2 0 1 1] = .ok st ∧
      (st.written.length : Int) = 25 ∧
      ((∃ t ∈ probed raggedWorld [mkTile ['a'] 0 0 1 1, mkTile ['b'] 1 0 1 1,
          mkTile ['c'] 2 0 1 1], 0 ≤ t.frames) → (st.written.length : Int) = 25) :=
  frames_written raggedWorld [mkTile ['a'] 0 0 1 1, mkTile ['b'] 1 0 1 1, mkTile ['c'] 2 0 1 1]
    (by decide) (fun _ _ _ _ _ => rfl)

/-- Claim C2 as stated fails.  With one source whose frame count is -1 the loop runs 0
iterations, not -1.  With the tile `5x5+-1+0`, which leaves the canvas, `comp_frame(r)`
throws in iteration 0 and no frame is written, of 3.  With the tiles `0x0+0+0` and
`4x4+0+0`, `resize` throws on the empty size in iteration 0.  With a source of 3 frames
that delivers only the first, `resize` throws in iteration 1 and one frame is written. -/
theorem frames_written_not_max :
    (threw (run_checked deviceWorld [mkTile ['a'] 0 0 1 1]) = false ∧
      (final_state (run_checked deviceWorld [mkTile ['a'] 0 0 1 1])).written.length = 0 ∧
      maxOver (fun t => t.frames) (probed deviceWorld [mkTile ['a'] 0 0 1 1]) = -1) ∧
    (threw (run_checked exampleWorld [mkTile ['a'] (-1) 0 5 5]) = true ∧
      (final_state (run_checked exampleWorld [mkTile ['a'] (-1) 0 5 5])).written.length = 0 ∧
      maxOver (fun t => t.frames) (probed exampleWorld [mkTile ['a'] (-1) 0 5 5]) = 3) ∧
    (threw (run_checked exampleWorld [mkTile ['a'] 0 0 0 0, mkTile ['b'] 0 0 4 4]) = true ∧
      (final_state (run_checked exampleWorld
        [mkTile ['a'] 0 0 0 0, mkTile ['b'] 0 0 4 4])).written.length = 0 ∧
      maxOver (fun t => t.frames)
        (probed exampleWorld [mkTile ['a'] 0 0 0 0, mkTile ['b'] 0 0 4 4]) = 3) ∧
    (threw (run_checked shortWorld [mkTile ['a'] 0 0 1 1]) = true ∧
      (final_state (run_checked shortWorld [mkTile ['a'] 0 0 1 1])).written.length = 1 ∧
      maxOver (fun t => t.frames) (probed shortWorld [mkTile ['a'] 0 0 1 1]) = 3) := by
  decide

/-- Claim C3, as the code has it: when tile `j` is active at frame `f`, a pixel of its
rectangle that lies in no rectangle of a later tile active at `f` shows, in the canvas
written for frame `f`, the resized frame `f` of source `j`; whatever an earlier tile `i`
with the same rectangle painted there is gone. -/
theorem later_tile_on_top (w : World) (tiles : List tile_info_t) (i j : Nat)
    (ti tj : tile_info_t) (f : Nat) (x y : Int) (_hij : i < j)
    (_hi : (probed w tiles)[i]? = some ti) (hj : (probed w tiles)[j]? = some tj)
    (_hrect : ti.tile_rect = tj.tile_rect)
    (_hfi : (f : Int) < ti.frames) (hfj : (f : Int) < tj.frames)
    (hin : tj.tile_rect.contains x y = true)
    (hlater : ∀ (k : Nat) (tk : tile_info_t), j < k → (probed w tiles)[k]? = some tk →
      (f : Int) < tk.frames →
      tk.tile_rect.contains x y = false) :
    ((run w tiles).written[f]?).map (fun c => c x y) =
      some (w.resize (w.read j f) tj.tile_rect.width tj.tile_rect.height
        (x - tj.tile_rect.x) (y - tj.tile_rect.y)) := by
  obtain ⟨pre, post, hsplit, hlen, hpost⟩ := split_at_index _ j tj hj
  have hmem : tj ∈ probed w tiles := by
    rw [hsplit]
    simp
  have hle := frames_le_max_frames w tiles tj hmem
  have hfn : f < (measured w tiles).max_frames.toNat := by omega
  rw [run_eq_after, written_at w _ _ _ f hfn, Option.map_some', after_succ,
    frame_step_comp_frame]
  have hafter : ∀ u ∈ post, u.frames > (f : Int) → u.tile_rect.contains x y = false := by
    intro u hu hact
    obtain ⟨k, hk, hku⟩ := hpost u hu
    exact hlater k u hk hku hact
  have hpaint := paint_tiles_last w f x y tj post hfj hin hafter pre 0
    (after w (pre ++ tj :: post) (LoopState.initial w.fresh) f)
  have hnext := after_next w pre post tj w.fresh f
  rw [Nat.zero_add, hnext, hlen] at hpaint
  have hmin : min f tj.frames.toNat = f := by omega
  rw [hmin] at hpaint
  rw [hsplit, hpaint]

/-- Instance of C3: two tiles on the same one-pixel rectangle; the canvas of frame 1 shows
frame 1 of the second source. -/
theorem later_tile_on_top_witness :
    ((run exampleWorld [mkTile ['a'] 0 0 1 1, mkTile ['b'] 0 0 1 1]).written[1]?).map
        (fun c => c 0 0) =
      some (exampleWorld.resize (exampleWorld.read 1 1) 1 1 (0 - 0) (0 - 0)) :=
  later_tile_on_top exampleWorld [mkTile ['a'] 0 0 1 1, mkTile ['b'] 0 0 1 1] 0 1
    { mkTile ['a'] 0 0 1 1 with frames := 3 } { mkTile ['b'] 0 0 1 1 with frames := 2 }
    1 0 0 (by decide) (by decide) (by decide) (by decide) (by decide) (by decide) (by decide)
    (by
      intro k tk hk htk
      have hnone : (probed exampleWorld [mkTile ['a'] 0 0 1 1, mkTile ['b'] 0 0 1 1])[k]? =
          none := by
        rw [List.getElem?_eq_none_iff]
        have : (probed exampleWorld [mkTile ['a'] 0 0 1 1, mkTile ['b'] 0 0 1 1]).length = 2 := by
          decide
        omega
      rw [hnone] at htk
      exact absurd htk (by simp))

/-- Claim C3 as stated fails: with three tiles on the same one-pixel rectangle, all active
at frame 0, the canvas of frame 0 shows the third source, not the second. -/
theorem third_tile_on_top :
    (probed exampleWorld [mkTile ['a'] 0 0 1 1, mkTile ['b'] 0 0 1 1,
        mkTile ['c'] 0 0 1 1]).map (fun t => (t.tile_rect, t.frames)) =
        [(⟨0, 0, 1, 1⟩, 3), (⟨0, 0, 1, 1⟩, 2), (⟨0, 0, 1, 1⟩, 1)] ∧
      ((run exampleWorld [mkTile ['a'] 0 0 1 1, mkTile ['b'] 0 0 1 1,
        mkTile ['c'] 0 0 1 1]).written[0]?).map (fun c => c 0 0) = some (2, 0, 0) ∧
      exampleWorld.resize (exampleWorld.read 1 0) 1 1 0 0 = (1, 0, 0) := by
  decide

/-- From iteration `k` on, a pixel that lies in no rectangle of a tile with more than `k`
frames keeps the value it had after iteration `k - 1`. -/
theorem after_pixel_const (w : World) (tiles : List tile_info_t) (st : LoopState) (k : Nat)
    (x y : Int)
    (hfree : ∀ u ∈ tiles, (k : Int) < u.frames → u.tile_rect.contains x y = false) :
    ∀ d : Nat, (after w tiles st (k + d)).comp_frame x y = (after w tiles st k).comp_frame x y := by
  intro d
  induction d with
  | zero => rfl
  | succ d ih =>
    have e : k + (d + 1) = k + d + 1 := by omega
    rw [e, after_succ, frame_step_comp_frame, paint_tiles_untouched w (k + d) x y tiles 0 _ ?_, ih]
    intro u hu hact
    refine hfree u hu ?_
    have : ((k + d : Nat) : Int) = (k : Int) + (d : Int) := by push_cast; rfl
    omega

/-- Claim C4, as the code has it: for a tile with `frame_count = k`,
`1 ≤ k ≤ f < total_frames`, a pixel of its rectangle that lies in no rectangle of a tile
with more than `k` frames has, in the canvas written for frame `f`, the value it has in the
canvas written for frame `k - 1`. -/
theorem exhausted_tile_keeps_last_frame (w : World) (tiles : List tile_info_t) (i : Nat)
    (t : tile_info_t) (k f : Nat) (x y : Int)
    (_ht : (probed w tiles)[i]? = some t) (_hk : t.frames = (k : Int)) (hk1 : 1 ≤ k)
    (hkf : k ≤ f) (hf : (f : Int) < (measured w tiles).max_frames)
    (_hin : t.tile_rect.contains x y = true)
    (hfree : ∀ u ∈ probed w tiles, (k : Int) < u.frames → u.tile_rect.contains x y = false) :
    ∃ c c0 : Image, (run w tiles).written[f]? = some c ∧
      (run w tiles).written[k - 1]? = some c0 ∧ c x y = c0 x y := by
  have hfn : f < (measured w tiles).max_frames.toNat := by omega
  have hkn : k - 1 < (measured w tiles).max_frames.toNat := by omega
  refine ⟨(after w (probed w tiles) (LoopState.initial w.fresh) (f + 1)).comp_frame,
    (after w (probed w tiles) (LoopState.initial w.fresh) (k - 1 + 1)).comp_frame, ?_, ?_, ?_⟩
  · rw [run_eq_after]
    exact written_at w _ _ _ f hfn
  · rw [run_eq_after]
    exact written_at w _ _ _ (k - 1) hkn
  · have e1 : f + 1 = k + (f + 1 - k) := by omega
    have e2 : k - 1 + 1 = k := by omega
    rw [e1, e2]
    exact after_pixel_const w _ _ k x y hfree _

/-- Instance of C4: a one-frame tile next to a longer one; the first tile's pixel is in
frames 1 and 2 what it was in frame 0. -/
theorem exhausted_tile_keeps_last_frame_witness :
    ∃ c c0 : Image, (run exampleWorld [mkTile ['a'] 1 0 1 1, mkTile ['b'] 1 0 1 1,
        mkTile ['c'] 0 0 1 1]).written[2]? = some c ∧
      (run exampleWorld [mkTile ['a'] 1 0 1 1, mkTile ['b'] 1 0 1 1,
        mkTile ['c'] 0 0 1 1]).written[1 - 1]? = some c0 ∧ c 0 0 = c0 0 0 :=
  exhausted_tile_keeps_last_frame exampleWorld [mkTile ['a'] 1 0 1 1, mkTile ['b'] 1 0 1 1,
    mkTile ['c'] 0 0 1 1] 2 { mkTile ['c'] 0 0 1 1 with frames := 1 } 1 2 0 0
    (by decide) (by decide) (by decide) (by decide) (by decide) (by decide) (by decide)

/-- Claim C4 as stated fails: two tiles on the same one-pixel rectangle with 3 and 2
frames; the second is exhausted after frame 1 (`k = 2`, `f = 2`, `total_frames = 3`), yet
its rectangle shows frame 2 of the first source in frame 2 and its own frame 1 in frame 1. -/
theorem exhausted_tile_region_changes :
    (probed exampleWorld [mkTile ['a'] 0 0 1 1, mkTile ['b'] 0 0 1 1]).map
        (fun t => (t.tile_rect, t.frames)) = [(⟨0, 0, 1, 1⟩, 3), (⟨0, 0, 1, 1⟩, 2)] ∧
      (measured exampleWorld [mkTile ['a'] 0 0 1 1, mkTile ['b'] 0 0 1 1]).max_frames = 3 ∧
      ((run exampleWorld [mkTile ['a'] 0 0 1 1, mkTile ['b'] 0 0 1 1]).written[2]?).map
        (fun c => c 0 0) = some (0, 2, 0) ∧
      ((run exampleWorld [mkTile ['a'] 0 0 1 1, mkTile ['b'] 0 0 1 1]).written[2 - 1]?).map
        (fun c => c 0 0) = some (1, 1, 0) := by
  decide

/-- Claim C9, as the code has it: when every tile with a positive frame count is paintable
and every source delivers a frame on each read below its frame count, the loop of the
program ends normally and, over the whole loop, source `i` is read at the frame indices
`0, ..., frame_count_i - 1`, in this order and at no others; that is `max(0, frame_count_i)`
reads.  A tile with `frame_count_i ≤ 0` is never read, and never painted: the pixels of its
rectangle that lie in no rectangle of a tile with a positive frame count hold the initial
content of the canvas in every written frame. -/
theorem reads_per_source (w : World) (tiles : List tile_info_t) (i : Nat) (t : tile_info_t)
    (ht : (probed w tiles)[i]? = some t)
    (hgeom : ∀ u ∈ probed w tiles, 0 < u.frames → paintable u = true)
    (hread : ∀ (j : Nat) (u : tile_info_t), (probed w tiles)[j]? = some u → ∀ k : Nat,
      (k : Int) < u.frames → w.read_empty j k = false) :
    ∃ st : LoopState, run_checked w tiles = .ok st ∧
      reads_of i st = List.range t.frames.toNat ∧
      ((reads_of i st).length : Int) = max 0 t.frames ∧
      st.next i = t.frames.toNat ∧
      (t.frames ≤ 0 → ∀ (f : Nat) (c : Image) (x y : Int), st.written[f]? = some c →
        t.tile_rect.contains x y = true →
        (∀ u ∈ probed w tiles, 0 < u.frames → u.tile_rect.contains x y = false) →
        c x y = w.fresh x y) := by
  obtain ⟨pre, post, hsplit, hlen, _⟩ := split_at_index _ i t ht
  have hmem : t ∈ probed w tiles := by
    rw [hsplit]
    simp
  have hle := frames_le_max_frames w tiles t hmem
  have hmin : min (measured w tiles).max_frames.toNat t.frames.toNat = t.frames.toNat := by
    omega
  have hreads : reads_of i (run w tiles) = List.range t.frames.toNat := by
    rw [run_eq_after, hsplit, ← hlen, after_reads, hmin]
  refine ⟨run w tiles, run_checked_ok w tiles hgeom hread, hreads, ?_, ?_, ?_⟩
  · rw [hreads, List.length_range]
    omega
  · rw [run_eq_after, hsplit, ← hlen, after_next, hmin]
  · intro _ f c x y hc _ hfree
    have hfn : f < (measured w tiles).max_frames.toNat := by
      have hsome : f < (run w tiles).written.length := by
        by_contra hcon
        rw [List.getElem?_eq_none (by omega)] at hc
        exact absurd hc (by simp)
      rw [run_eq_after, after_written_length] at hsome
      exact hsome
    rw [run_eq_after, written_at w _ _ _ f hfn] at hc
    injection hc with hc
    rw [← hc]
    have hconst := after_pixel_const w (probed w tiles) (LoopState.initial w.fresh) 0 x y
      (fun u hu hact => hfree u hu (by simpa using hact)) (f + 1)
    rw [Nat.zero_add] at hconst
    rw [hconst]
    rfl

/-- Instance of C9: of two tiles with 2 and 0 frames, the second source is never read and
its pixel keeps the initial content of the canvas. -/
theorem reads_per_source_witness :
    ∃ st : LoopState, run_checked idleWorld [mkTile ['a'] 0 0 1 1, mkTile ['b'] 1 0 1 1] =
        .ok st ∧
      reads_of 1 st = List.range (0 : Int).toNat ∧
      ((reads_of 1 st).length : Int) = max 0 0 ∧
      st.next 1 = (0 : Int).toNat ∧
      ((0 : Int) ≤ 0 → ∀ (f : Nat) (c : Image) (x y : Int), st.written[f]? = some c →
        (mkTile ['b'] 1 0 1 1).tile_rect.contains x y = true →
        (∀ u ∈ probed idleWorld [mkTile ['a'] 0 0 1 1, mkTile ['b'] 1 0 1 1], 0 < u.frames →
          u.tile_rect.contains x y = false) →
        c x y = idleWorld.fresh x y) :=
  reads_per_source idleWorld [mkTile ['a'] 0 0 1 1, mkTile ['b'] 1 0 1 1] 1
    (mkTile ['b'] 1 0 1 1) (by decide) (by decide) (fun _ _ _ _ _ => rfl)

/-- Claim C9 as stated fails.  A source whose frame count is -1 is read 0 times, not -1
times.  The source of the tile `5x5+-1+0`, of 3 frames, is read once: `comp_frame(r)`
throws in iteration 0, right after the first read. -/
theorem negative_count_never_read :
    ((probed deviceWorld [mkTile ['a'] 0 0 1 1]).map (fun t => t.frames) = [-1] ∧
      threw (run_checked deviceWorld [mkTile ['a'] 0 0 1 1]) = false ∧
      reads_of 0 (final_state (run_checked deviceWorld [mkTile ['a'] 0 0 1 1])) = []) ∧
    ((probed exampleWorld [mkTile ['a'] (-1) 0 5 5]).map (fun t => t.frames) = [3] ∧
      threw (run_checked exampleWorld [mkTile ['a'] (-1) 0 5 5]) = true ∧
      reads_of 0 (final_state (run_checked exampleWorld [mkTile ['a'] (-1) 0 5 5])) = [0]) := by
  decide

/-- Claim C10: for a frame index `f ≥ 1` for which a canvas is written, a pixel that lies
in no rectangle of a tile active at `f` has in the canvas written for frame `f` the value
it has in the canvas written for frame `f - 1`. -/
theorem untouched_pixel_persists (w : World) (tiles : List tile_info_t) (f : Nat) (x y : Int)
    (hf1 : 1 ≤ f) (hf : (f : Int) < (measured w tiles).max_frames)
    (hfree : ∀ (i : Nat) (t : tile_info_t), (probed w tiles)[i]? = some t →
      (f : Int) < t.frames →
      t.tile_rect.contains x y = false) :
    ∃ c c0 : Image, (run w tiles).written[f]? = some c ∧
      (run w tiles).written[f - 1]? = some c0 ∧ c x y = c0 x y := by
  have hfn : f < (measured w tiles).max_frames.toNat := by omega
  have hpn : f - 1 < (measured w tiles).max_frames.toNat := by omega
  refine ⟨(after w (probed w tiles) (LoopState.initial w.fresh) (f + 1)).comp_frame,
    (after w (probed w tiles) (LoopState.initial w.fresh) (f - 1 + 1)).comp_frame, ?_, ?_, ?_⟩
  · rw [run_eq_after]
    exact written_at w _ _ _ f hfn
  · rw [run_eq_after]
    exact written_at w _ _ _ (f - 1) hpn
  · have e : f - 1 + 1 = f := by omega
    rw [e, after_succ, frame_step_comp_frame]
    refine paint_tiles_untouched w f x y _ 0 _ ?_
    intro u hu hact
    obtain ⟨i, hiu⟩ := List.mem_iff_getElem?.1 hu
    exact hfree i u hiu hact

/-- Instance of C10: two tiles with 3 and 2 frames side by side; in frame 2 the second
tile is inactive and its pixel is what it was in frame 1. -/
theorem untouched_pixel_persists_witness :
    ∃ c c0 : Image, (run exampleWorld [mkTile ['a'] 0 0 1 1, mkTile ['b'] 1 0 1 1]).written[2]? =
        some c ∧
      (run exampleWorld [mkTile ['a'] 0 0 1 1, mkTile ['b'] 1 0 1 1]).written[2 - 1]? =
        some c0 ∧ c 1 0 = c0 1 0 :=
  untouched_pixel_persists exampleWorld [mkTile ['a'] 0 0 1 1, mkTile ['b'] 1 0 1 1] 2 1 0
    (by decide) (by decide)
    (by
      intro i t hit hact
      match i, hit with
      | 0, hit =>
        simp only [probed, probe_and_measure, List.getElem?_cons_zero, Option.some.injEq] at hit
        subst hit
        decide
      | 1, hit =>
        simp only [probed, probe_and_measure, List.getElem?_cons_succ, List.getElem?_cons_zero,
          Option.some.injEq] at hit
        subst hit
        exact absurd hact (by decide)
      | k + 2, hit =>
        simp [probed, probe_and_measure] at hit)

/-! ## The function `main` -/

theorem scan_options_none_iff : ∀ (opts : List OptEvent) (o : Options),
    scan_options opts o = none ↔ usage_requested opts = true := by
  intro opts
  induction opts with
  | nil => intro o; simp [scan_options, usage_requested]
  | cons e r ih =>
    intro o
    cases e with
    | codec a => simpa [scan_options, usage_requested] using ih _
    | fps a => simpa [scan_options, usage_requested] using ih _
    | output a => simpa [scan_options, usage_requested] using ih _
    | verbose => simpa [scan_options, usage_requested] using ih _
    | help => simp [scan_options, usage_requested]
    | unknown => simp [scan_options, usage_requested]

/-- Without an option, the codec stays unset (so `xvid` is taken) and `fps` is 30. -/
theorem scan_options_nil : scan_options [] default_options = some default_options ∧
    default_options.fps = 30 ∧ default_options.codec.getD "xvid".toList = "xvid".toList :=
  ⟨rfl, rfl, rfl⟩

theorem parse_tiles_malformed : ∀ specs : List CStr,
    (∀ s ∈ specs, parse_tile s ≠ .error .nullDeref) →
    (∃ s ∈ specs, parse_tile s = .error .malformed) →
    parse_tiles specs = .error .malformed := by
  intro specs
  induction specs with
  | nil =>
    rintro _ ⟨s, hs, _⟩
    exact absurd hs (List.not_mem_nil s)
  | cons a r ih =>
    intro hnull hmal
    unfold parse_tiles
    cases ha : parse_tile a with
    | error e =>
      cases e with
      | malformed => rfl
      | nullDeref => exact absurd ha (hnull a (List.mem_cons_self _ _))
    | ok t =>
      have hr : ∃ s ∈ r, parse_tile s = .error .malformed := by
        obtain ⟨s, hs, hsm⟩ := hmal
        rcases List.mem_cons.1 hs with h | h
        · rw [h, ha] at hsm
          exact absurd hsm (by simp)
        · exact ⟨s, h, hsm⟩
      simp only []
      rw [ih (fun s hs => hnull s (List.mem_cons_of_mem _ hs)) hr]

theorem parse_tiles_ok_length : ∀ (specs : List CStr) (tiles : List tile_info_t),
    parse_tiles specs = .ok tiles → tiles.length = specs.length := by
  intro specs
  induction specs with
  | nil =>
    intro tiles h
    simp only [parse_tiles, Except.ok.injEq] at h
    rw [← h]
    rfl
  | cons a r ih =>
    intro tiles h
    unfold parse_tiles at h
    split at h
    · exact absurd h (by simp)
    · split at h
      · exact absurd h (by simp)
      · next ts hts =>
        simp only [Except.ok.injEq] at h
        rw [← h, List.length_cons, List.length_cons, ih ts hts]

/-- The exit status of `main`: 1 when help was requested or an option was not accepted,
when the parsing of the tile specifications stops as malformed, when there is no tile
specification, when the codec is not 4 characters long, when `fps < 1` or when the writer
does not open; none when `strtok_r` hands back NULL or when the loop throws; and 0
otherwise. -/
theorem main_exit_status (w : World) (cl : CommandLine) :
    (usage_requested cl.options = true → (main w cl).status = some 1) ∧
    (∀ o, scan_options cl.options default_options = some o →
      (parse_tiles cl.operands = .error .malformed → (main w cl).status = some 1) ∧
      (parse_tiles cl.operands = .error .nullDeref → (main w cl).status = none) ∧
      (∀ tiles, parse_tiles cl.operands = .ok tiles →
        (main w cl).status =
          if cl.operands = [] ∨ (o.codec.getD "xvid".toList).length ≠ 4 ∨ o.fps < 1 ∨
              w.writer_opens (o.output_filename.getD "composite.avi".toList)
                (o.codec.getD "xvid".toList) o.fps (measured w tiles).x_max
                (measured w tiles).y_max = false
            then some 1
            else if threw (run_checked w tiles) = true then none else some 0)) := by
  refine ⟨?_, ?_⟩
  · intro h
    have hs := (scan_options_none_iff cl.options default_options).2 h
    unfold main
    rw [hs]
    rfl
  · intro o ho
    refine ⟨?_, ?_, ?_⟩
    · intro hmal
      unfold main
      rw [ho, hmal]
      rfl
    · intro hnull
      unfold main
      rw [ho, hnull]
      rfl
    · intro tiles ht
      have hlen := parse_tiles_ok_length cl.operands tiles ht
      unfold main
      rw [ho, ht]
      simp only []
      by_cases h0 : cl.operands = []
      · have : tiles.length ≤ 0 := by rw [hlen, h0]; exact le_refl _
        rw [if_pos this, if_pos (Or.inl h0)]
        rfl
      · have hpos : ¬ tiles.length ≤ 0 := by
          rw [hlen]
          have := List.length_pos.2 h0
          omega
        rw [if_neg hpos]
        by_cases h1 : (o.codec.getD "xvid".toList).length ≠ 4
        · rw [if_pos h1, if_pos (Or.inr (Or.inl h1))]
          rfl
        · rw [if_neg h1]
          by_cases h2 : o.fps < 1
          · rw [if_pos h2, if_pos (Or.inr (Or.inr (Or.inl h2)))]
            rfl
          · rw [if_neg h2]
            by_cases h3 : w.writer_opens (o.output_filename.getD "composite.avi".toList)
                (o.codec.getD "xvid".toList) o.fps (measured w tiles).x_max
                (measured w tiles).y_max = false
            · rw [if_pos h3, if_pos (Or.inr (Or.inr (Or.inr h3)))]
              rfl
            · rw [if_neg h3, if_neg (by
                rintro (h | h | h | h)
                · exact h0 h
                · exact h1 h
                · exact h2 h
                · exact h3 h)]
              cases run_checked w tiles with
              | error e => rfl
              | ok st => rfl

/-- Claim C7 fails on the code for the command line whose only argument is the empty
string: `strtok_r` returns NULL, `strdup(NULL)` is undefined behaviour, and the run has no
exit status, neither 1 nor 0. -/
theorem main_empty_spec_no_status (w : World) :
    parse_tile [] = .error .nullDeref ∧
      (main w { options := [], operands := [[]] }).status = none := by
  exact ⟨rfl, rfl⟩

end VidCollage
